import Mathlib

/-!
Verification development for the realtime-app repository
(Socket.IO signaling server `src/server/server.js` and WebRTC client
`src/client/main.js`).

The server keeps a registry `rooms : Map<roomId, {users, locations}>`, a
per-socket `socket.roomId` field, and relies on Socket.IO channel
("room") membership for broadcasts (`socket.join`, `socket.to`, `io.to`).
All of these are modelled below as insertion-ordered association lists
with String keys, matching JS `Map`/`Set` iteration semantics.

The client keeps `peerConnections : Map<userId, RTCPeerConnection>`,
`currentRoomUsers : Set<userId>`, `localStream`, `ROOM_ID` and `isInRoom`.
The opaque `RTCPeerConnection` transport is modelled by the descriptions
and candidates handed to it: `setLocalDescription`/`setRemoteDescription`
record the description; `addIceCandidate` succeeds exactly when a remote
description has been applied (the InvalidStateError contract that the
client's own catch-comment refers to) and otherwise fails, which the
client code swallows.  Latitude/longitude values are only stored and
forwarded, never computed with, so they are modelled by an opaque
integer carrier.  DOM, map-marker and video-element effects are
out-of-core collaborators (spec sections 1 and 6) and are not modelled.
-/

namespace RealtimeApp

/-! ## Association lists (JS `Map` with string keys) -/

def lookupA {α : Type} : List (String × α) → String → Option α
  | [], _ => none
  | p :: ps, k => if p.1 = k then some p.2 else lookupA ps k

/-- JS `Map.prototype.set`: replace in place if the key is present,
otherwise append (insertion order preserved). -/
def setA {α : Type} : List (String × α) → String → α → List (String × α)
  | [], k, v => [(k, v)]
  | p :: ps, k, v => if p.1 = k then (k, v) :: ps else p :: setA ps k v

/-- JS `Map.prototype.delete`. -/
def eraseA {α : Type} : List (String × α) → String → List (String × α)
  | [], _ => []
  | p :: ps, k => if p.1 = k then ps else p :: eraseA ps k

def NoDupKeys {α : Type} (l : List (String × α)) : Prop :=
  (l.map Prod.fst).Nodup

/-- JS `Set.prototype.add`: append if not already present. -/
def setAdd (l : List String) (x : String) : List String :=
  if x ∈ l then l else l ++ [x]

/-! ## Server data model (`src/server/server.js`) -/

/-- Coordinates are float64 in the source but are only ever stored and
forwarded verbatim, so an opaque integer carrier is faithful. -/
abbrev Coord := Int

structure LatLng where
  lat : Coord
  lng : Coord
deriving DecidableEq, Repr

/-- One entry of the `locations` array in a `room-state` payload. -/
structure LocEntry where
  userId : String
  lat : Coord
  lng : Coord
deriving DecidableEq, Repr

/-- `rooms.get(roomId)`: `{ users: Set<socketId>, locations: Map<socketId, {lat,lng}> }`. -/
structure Room where
  users : List String
  locations : List (String × LatLng)
deriving DecidableEq, Repr

/-- A message emitted by the server, tagged with the receiving socket. -/
inductive ServerMsg where
  | userJoined (target userId : String)
  | roomState (target : String) (users : List String) (locations : List LocEntry)
  | userLeft (target userId : String)
  | webrtcSignal (target rid fromId : String) (payload : String)
  | locationUpdate (target rid userId : String) (lat lng : Coord)
deriving DecidableEq, Repr

def isUserLeftMsg : ServerMsg → Bool
  | ServerMsg.userLeft _ _ => true
  | _ => false

/-- An inbound event on the server.  `webrtcSignal` carries the
caller-supplied `from` field, which the handler destructures and
ignores. -/
inductive ServerEvent where
  | connect (sid : String)
  | joinRoom (sid rid : String)
  | webrtcSignal (sid rid fromId : String) (toId : Option String) (payload : String)
  | locationUpdate (sid rid : String) (lat lng : Coord)
  | disconnect (sid : String)
deriving DecidableEq, Repr

/-- Server-side state: the app-level `rooms` registry, the per-socket
`socket.roomId` fields, and Socket.IO channel membership (`socket.join`
adds, only a transport disconnect removes; the app never calls
`socket.leave`). -/
structure ServerState where
  rooms : List (String × Room)
  sockRoom : List (String × String)
  channels : List (String × List String)
deriving DecidableEq, Repr

def initialServerState : ServerState := ⟨[], [], []⟩

/-- Members of a Socket.IO channel: the target set of `io.to(r)`. -/
def chanMembers (channels : List (String × List String)) (r : String) : List String :=
  (lookupA channels r).getD []

/-- `socket.join(r)`. -/
def chanJoin (channels : List (String × List String)) (r sid : String) :
    List (String × List String) :=
  setA channels r (setAdd (chanMembers channels r) sid)

/-- `leaveRoom(socketId, roomId)` (server.js lines 135-147): removes the
socket from the room's `users` and `locations`; deletes the room when
`users` becomes empty.  Note it does NOT broadcast anything. -/
def leaveRoom (sid rid : String) (rooms : List (String × Room)) : List (String × Room) :=
  match lookupA rooms rid with
  | none => rooms
  | some room =>
    if (room.users.filter (fun x => x ≠ sid)).isEmpty then eraseA rooms rid
    else setA rooms rid ⟨room.users.filter (fun x => x ≠ sid), eraseA room.locations sid⟩

/-- The registry part of the `join-room` handler (server.js lines 42-51):
create the room if absent, then add the socket to the room's `users` set
(the JS code mutates the looked-up room object in place; functionally
that is one value update of the room's entry). -/
def registerJoin (rooms : List (String × Room)) (rid sid : String) : List (String × Room) :=
  match lookupA rooms rid with
  | none => setA rooms rid ⟨setAdd [] sid, []⟩
  | some room => setA rooms rid ⟨setAdd room.users sid, room.locations⟩

/-- The registry as it stands when the `join-room` handler reaches the
registration step: the previous room, if any, has been left
(server.js lines 34-36). -/
def joinRoomsBefore (st : ServerState) (sid : String) : List (String × Room) :=
  match lookupA st.sockRoom sid with
  | some old => leaveRoom sid old st.rooms
  | none => st.rooms

/-- `join-room` handler (server.js lines 32-67).  Order as in the source:
leave the previous room if any (no broadcast there), `socket.join`,
set `socket.roomId`, register in the registry, broadcast `user-joined`
to the channel minus the sender, then send `room-state` to the caller. -/
def handleJoin (st : ServerState) (sid rid : String) : ServerState × List ServerMsg :=
  let channels1 := chanJoin st.channels rid sid
  let rooms3 := registerJoin (joinRoomsBefore st sid) rid sid
  let room' := (lookupA rooms3 rid).getD ⟨[], []⟩
  let others := (chanMembers channels1 rid).filter (fun x => x ≠ sid)
  (⟨rooms3, setA st.sockRoom sid rid, channels1⟩,
   others.map (fun t => ServerMsg.userJoined t sid) ++
   [ServerMsg.roomState sid (room'.users.filter (fun x => x ≠ sid))
      (room'.locations.map (fun p => ⟨p.1, p.2.lat, p.2.lng⟩))])

/-- `webrtc-signal` handler (server.js lines 70-94).  The caller-supplied
`from` is not a parameter at all: the event dispatcher below drops it,
exactly as the handler destructures and never reads it.  `from` in the
forwarded message is always `socket.id`. -/
def handleSignal (st : ServerState) (sid rid : String) (toId : Option String)
    (payload : String) : ServerState × List ServerMsg :=
  if lookupA st.sockRoom sid = some rid then
    match toId with
    | some t =>
      (st, (chanMembers st.channels t).map (fun x => ServerMsg.webrtcSignal x rid sid payload))
    | none =>
      (st, ((chanMembers st.channels rid).filter (fun x => x ≠ sid)).map
        (fun x => ServerMsg.webrtcSignal x rid sid payload))
  else (st, [])

/-- `location-update` handler (server.js lines 97-120). -/
def handleLocation (st : ServerState) (sid rid : String) (la ln : Coord) :
    ServerState × List ServerMsg :=
  if lookupA st.sockRoom sid = some rid then
    match lookupA st.rooms rid with
    | none => (st, [])
    | some room =>
      (⟨setA st.rooms rid ⟨room.users, setA room.locations sid ⟨la, ln⟩⟩,
        st.sockRoom, st.channels⟩,
       ((chanMembers st.channels rid).filter (fun x => x ≠ sid)).map
         (fun x => ServerMsg.locationUpdate x rid sid la ln))
  else (st, [])

/-- `disconnect` handler (server.js lines 123-132).  Socket.IO removes
the socket from every channel before user handlers run; then, if the
socket had a room, `leaveRoom` runs and `user-left` is broadcast via
`io.to(roomId)` (the departed socket is no longer in the channel). -/
def handleDisconnect (st : ServerState) (sid : String) : ServerState × List ServerMsg :=
  let channels1 := st.channels.map (fun p => (p.1, p.2.filter (fun x => x ≠ sid)))
  match lookupA st.sockRoom sid with
  | none => (⟨st.rooms, eraseA st.sockRoom sid, channels1⟩, [])
  | some r =>
    (⟨leaveRoom sid r st.rooms, eraseA st.sockRoom sid, channels1⟩,
     (chanMembers channels1 r).map (fun t => ServerMsg.userLeft t sid))

/-- One server event.  On `connection` Socket.IO places the socket in a
private channel named by its own id, which is what makes `io.to(to)`
reach a single socket. -/
def serverStep (st : ServerState) : ServerEvent → ServerState × List ServerMsg
  | ServerEvent.connect sid => (⟨st.rooms, st.sockRoom, chanJoin st.channels sid sid⟩, [])
  | ServerEvent.joinRoom sid rid => handleJoin st sid rid
  | ServerEvent.webrtcSignal sid rid _ toId payload => handleSignal st sid rid toId payload
  | ServerEvent.locationUpdate sid rid la ln => handleLocation st sid rid la ln
  | ServerEvent.disconnect sid => handleDisconnect st sid

def serverRunFrom (st : ServerState) : List ServerEvent → ServerState × List ServerMsg
  | [] => (st, [])
  | e :: es =>
    let r1 := serverStep st e
    let r2 := serverRunFrom r1.1 es
    (r2.1, r1.2 ++ r2.2)

def serverRun (es : List ServerEvent) : ServerState × List ServerMsg :=
  serverRunFrom initialServerState es

/-! ## Server invariants -/

/-- Every room entry in the registry has a non-empty participant set
(spec section 3 invariant, claim C3). -/
def RoomsNonempty (st : ServerState) : Prop :=
  ∀ p ∈ st.rooms, p.2.users ≠ []

/-- The registry together with the key-uniqueness a JS `Map` guarantees
by construction. -/
def RegistryWF (st : ServerState) : Prop :=
  NoDupKeys st.rooms ∧ RoomsNonempty st

/-- Every registry member of a room is in that room's Socket.IO channel,
so `socket.to(roomId)` broadcasts reach every current member. -/
def ChanCover (st : ServerState) : Prop :=
  ∀ p ∈ st.rooms, ∀ u ∈ p.2.users, u ∈ chanMembers st.channels p.1

/-- Every registry member's `socket.roomId` field points back at the
room that contains it. -/
def RoomOwner (st : ServerState) : Prop :=
  ∀ p ∈ st.rooms, ∀ u ∈ p.2.users, lookupA st.sockRoom u = some p.1

/-- Well-formedness of reachable server states. -/
def ServerWF (st : ServerState) : Prop :=
  NoDupKeys st.rooms ∧ ChanCover st ∧ RoomOwner st

instance {α : Type} (l : List (String × α)) : Decidable (NoDupKeys l) := by
  unfold NoDupKeys
  infer_instance

instance (st : ServerState) : Decidable (RoomsNonempty st) := by
  unfold RoomsNonempty
  infer_instance

instance (st : ServerState) : Decidable (RegistryWF st) := by
  unfold RegistryWF
  infer_instance

instance (st : ServerState) : Decidable (ChanCover st) := by
  unfold ChanCover
  infer_instance

instance (st : ServerState) : Decidable (RoomOwner st) := by
  unfold RoomOwner
  infer_instance

instance (st : ServerState) : Decidable (ServerWF st) := by
  unfold ServerWF
  infer_instance

/-- A small reachable server state shared by several examples below:
sockets `a` and `b` connect and both join room `r1`. -/
def sampleEvents : List ServerEvent :=
  [ServerEvent.connect "a", ServerEvent.connect "b",
   ServerEvent.joinRoom "a" "r1", ServerEvent.joinRoom "b" "r1"]

def sampleState : ServerState := (serverRun sampleEvents).1

/-- The state just before `b` joins `r1`. -/
def sampleStatePre : ServerState :=
  (serverRun [ServerEvent.connect "a", ServerEvent.connect "b",
    ServerEvent.joinRoom "a" "r1"]).1

/-! ## Client data model (`src/client/main.js`) -/

inductive SDKind where
  | offer
  | answer
deriving DecidableEq, Repr

/-- A session description (`RTCSessionDescription`); the SDP body is
opaque to the client logic. -/
structure SDesc where
  kind : SDKind
  sdp : String
deriving DecidableEq, Repr

/-- The payload of a `webrtc-signal` message as the client reads it:
either a session description (`signal.type` offer/answer) or an ICE
candidate (`signal.candidate`, opaque). -/
inductive ClientSignal where
  | sd (d : SDesc)
  | candidate (c : String)
deriving DecidableEq, Repr

/-- The observable state of one `RTCPeerConnection` transport: what the
client has handed to `setLocalDescription` / `setRemoteDescription`,
the candidates successfully passed to `addIceCandidate`, and whether
local tracks were attached at creation time. -/
structure PeerConn where
  localDesc : Option SDesc
  remoteDesc : Option SDesc
  addedCandidates : List String
  tracksAttached : Bool
deriving DecidableEq, Repr

def freshPeerConn (stream : Bool) : PeerConn := ⟨none, none, [], stream⟩

/-- The canonical description produced by `createOffer()` /
`createAnswer()`; its SDP body is transport-generated and opaque. -/
def offerDesc : SDesc := ⟨SDKind.offer, "local-offer"⟩

def answerDesc : SDesc := ⟨SDKind.answer, "local-answer"⟩

/-- A message the client emits to the server. -/
inductive ClientMsg where
  | joinRoom (rid : String)
  | signal (rid : Option String) (fromId : String) (toId : Option String) (payload : ClientSignal)
deriving DecidableEq, Repr

/-- Client session state.  `transports` counts `new RTCPeerConnection`
allocations, to make "no new transport is allocated" expressible. -/
structure ClientState where
  peers : List (String × PeerConn)
  currentRoomUsers : List String
  localStream : Bool
  roomId : Option String
  isInRoom : Bool
  transports : Nat
deriving DecidableEq, Repr

def initialClientState : ClientState := ⟨[], [], false, none, false, 0⟩

/-- `createPeerConnection(userId)` (main.js lines 203-281): rejects
self-links, is a no-op when a connection already exists, otherwise
allocates a transport (attaching local tracks if present) and stores
it. -/
def createPeerConnection (cs : ClientState) (selfId userId : String) : ClientState :=
  if userId = selfId then cs
  else if (lookupA cs.peers userId).isSome then cs
  else { cs with peers := cs.peers ++ [(userId, freshPeerConn cs.localStream)],
                 transports := cs.transports + 1 }

/-- `createOffer(userId)` (main.js lines 284-308): requires the peer
connection and the local stream; produces an offer, applies it locally
and sends it as a targeted signal. -/
def createOffer (cs : ClientState) (selfId userId : String) : ClientState × List ClientMsg :=
  match lookupA cs.peers userId with
  | none => (cs, [])
  | some pc =>
    if cs.localStream then
      ({ cs with peers := setA cs.peers userId { pc with localDesc := some offerDesc } },
       [ClientMsg.signal cs.roomId selfId (some userId) (ClientSignal.sd offerDesc)])
    else (cs, [])

/-- The dispatch on `signal.type` in the `webrtc-signal` handler
(main.js lines 147-184), applied once a peer connection exists.  The
offer branch applies the remote description unconditionally (no
rollback), answers, and targets the answer at the sender; the answer
branch applies the remote description; the candidate branch calls
`addIceCandidate` and swallows its failure: despite the log message, no
queue exists, so a candidate arriving before the remote description is
dropped. -/
def applySignalToPeer (cs0 : ClientState) (selfId fromId : String) (sig : ClientSignal) :
    ClientState × List ClientMsg :=
  match lookupA cs0.peers fromId with
  | none => (cs0, [])
  | some pc =>
    match sig with
    | ClientSignal.sd d =>
      if d.kind = SDKind.offer then
        let pc2 := { pc with remoteDesc := some d, localDesc := some answerDesc }
        ({ cs0 with peers := setA cs0.peers fromId pc2 },
         [ClientMsg.signal cs0.roomId selfId (some fromId) (ClientSignal.sd answerDesc)])
      else
        ({ cs0 with peers := setA cs0.peers fromId { pc with remoteDesc := some d } }, [])
    | ClientSignal.candidate c =>
      if pc.remoteDesc.isSome then
        let pc2 := { pc with addedCandidates := pc.addedCandidates ++ [c] }
        ({ cs0 with peers := setA cs0.peers fromId pc2 }, [])
      else (cs0, [])

/-- `webrtc-signal` handler (main.js lines 131-189): create the missing
peer connection on demand when local media is ready (lines 136-140),
then dispatch on the signal type. -/
def handleWebrtcSignal (cs : ClientState) (selfId fromId : String) (sig : ClientSignal) :
    ClientState × List ClientMsg :=
  applySignalToPeer
    (if (lookupA cs.peers fromId).isNone ∧ cs.localStream then
       createPeerConnection cs selfId fromId
     else cs) selfId fromId sig

/-- The `room-state` handler's loop over existing users (main.js lines
73-81): for each user other than self, create a connection and offer. -/
def roomStateLoop (selfId : String) : ClientState → List String → ClientState × List ClientMsg
  | cs, [] => (cs, [])
  | cs, u :: rest =>
    if u ≠ selfId then
      let cs1 := createPeerConnection cs selfId u
      let r1 := createOffer cs1 selfId u
      let r2 := roomStateLoop selfId r1.1 rest
      (r2.1, r1.2 ++ r2.2)
    else roomStateLoop selfId cs rest

/-- `room-state` handler (main.js lines 62-87): rebuild the membership
view (received users plus self), then, if local media is ready and the
list is non-empty, connect and offer to each listed user.  Location
entries go to the map collaborator, outside the core. -/
def handleRoomState (cs : ClientState) (selfId : String) (users : List String) :
    ClientState × List ClientMsg :=
  let cs1 := { cs with currentRoomUsers := setAdd (users.foldl setAdd []) selfId }
  if users ≠ [] ∧ cs1.localStream then roomStateLoop selfId cs1 users
  else (cs1, [])

/-- `user-joined` handler (main.js lines 90-105). -/
def handleUserJoined (cs : ClientState) (selfId uid : String) : ClientState × List ClientMsg :=
  let cs1 := { cs with currentRoomUsers := setAdd cs.currentRoomUsers uid }
  if cs1.localStream ∧ uid ≠ selfId then
    createOffer (createPeerConnection cs1 selfId uid) selfId uid
  else (cs1, [])

/-- `user-left` handler (main.js lines 108-128): drop the user from the
view, close and discard its peer connection. -/
def handleUserLeft (cs : ClientState) (uid : String) : ClientState :=
  { cs with currentRoomUsers := cs.currentRoomUsers.filter (fun x => x ≠ uid),
            peers := eraseA cs.peers uid }

/-- The loop in `startLocalStream` over the other room members (main.js
lines 410-421); the list is pre-filtered to exclude self. -/
def connectLoop (selfId : String) : ClientState → List String → ClientState × List ClientMsg
  | cs, [] => (cs, [])
  | cs, u :: rest =>
    let cs1 := createPeerConnection cs selfId u
    let r1 := createOffer cs1 selfId u
    let r2 := connectLoop selfId r1.1 rest
    (r2.1, r1.2 ++ r2.2)

/-- `startLocalStream` success path (main.js lines 399-423): local media
becomes ready; if in a room with other members, connect and offer to
every member other than self. -/
def startLocalStream (cs : ClientState) (selfId : String) : ClientState × List ClientMsg :=
  let cs1 := { cs with localStream := true }
  if cs1.isInRoom ∧ 1 < cs1.currentRoomUsers.length then
    connectLoop selfId cs1 (cs1.currentRoomUsers.filter (fun x => x ≠ selfId))
  else (cs1, [])

/-- `joinRoom(roomName)` (main.js lines 543-583): reject blank names;
when already in a room, close every peer connection and clear the view;
then record the new room and emit `join-room`. -/
def joinRoomLocal (cs : ClientState) (roomName : String) : ClientState × List ClientMsg :=
  if roomName.trim = "" then (cs, [])
  else
    let cs1 := if cs.isInRoom then { cs with peers := ([] : List (String × PeerConn)),
                                             currentRoomUsers := ([] : List String) }
               else cs
    ({ cs1 with roomId := some roomName.trim, isInRoom := true },
     [ClientMsg.joinRoom roomName.trim])

/-- The client-side events the core reacts to. -/
inductive ClientEvent where
  | roomState (users : List String)
  | userJoined (uid : String)
  | userLeft (uid : String)
  | webrtcSignal (fromId : String) (sig : ClientSignal)
  | mediaReady
  | joinRoomReq (name : String)
deriving DecidableEq, Repr

def clientStep (cs : ClientState) (selfId : String) : ClientEvent → ClientState × List ClientMsg
  | ClientEvent.roomState users => handleRoomState cs selfId users
  | ClientEvent.userJoined uid => handleUserJoined cs selfId uid
  | ClientEvent.userLeft uid => (handleUserLeft cs uid, [])
  | ClientEvent.webrtcSignal fromId sig => handleWebrtcSignal cs selfId fromId sig
  | ClientEvent.mediaReady => startLocalStream cs selfId
  | ClientEvent.joinRoomReq name => joinRoomLocal cs name

/-- Sample client session `me` in room `r1` with a peer link to `p1`
that is in the Offering state (a local offer applied, no remote
description yet). -/
def offeringClient : ClientState :=
  ⟨[("p1", ⟨some ⟨SDKind.offer, "my-offer"⟩, none, [], true⟩)], ["me", "p1"], true,
    some "r1", true, 1⟩

/-- Sample client session `me` with a fresh peer link to `p1` that has
no remote description applied yet. -/
def preOfferClient : ClientState :=
  ⟨[("p1", ⟨none, none, [], true⟩)], ["me", "p1"], true, some "r1", true, 1⟩

/-- Sample client session `me` in room `r1` with member `p1` recorded
while local media is not yet ready (a pending peer). -/
def mediaPendingClient : ClientState :=
  ⟨[], ["me", "p1"], false, some "r1", true, 0⟩


/-! ## Association list lemmas -/

theorem lookupA_setA_self {α : Type} (l : List (String × α)) (k : String) (v : α) :
    lookupA (setA l k v) k = some v := by
  induction l with
  | nil => simp [setA, lookupA]
  | cons p ps ih =>
    obtain ⟨p1, p2⟩ := p
    by_cases hp : p1 = k
    · simp [setA, lookupA, hp]
    · simp [setA, lookupA, hp, ih]

theorem lookupA_setA_ne {α : Type} (l : List (String × α)) {k k' : String} (v : α)
    (h : k' ≠ k) : lookupA (setA l k v) k' = lookupA l k' := by
  have hk : ¬(k = k') := fun hh => h hh.symm
  induction l with
  | nil => simp [setA, lookupA, hk]
  | cons p ps ih =>
    obtain ⟨p1, p2⟩ := p
    by_cases hp : p1 = k
    · subst hp
      simp [setA, lookupA, hk]
    · simp [setA, lookupA, hp, ih]

theorem lookupA_eq_none_of_not_mem_keys {α : Type} {l : List (String × α)} {k : String}
    (h : k ∉ l.map Prod.fst) : lookupA l k = none := by
  induction l with
  | nil => rfl
  | cons p ps ih =>
    obtain ⟨p1, p2⟩ := p
    simp only [List.map_cons, List.mem_cons] at h
    push_neg at h
    have h1 : ¬(p1 = k) := fun hh => h.1 hh.symm
    simp [lookupA, h1, ih h.2]

theorem lookupA_eraseA_self {α : Type} {l : List (String × α)} {k : String}
    (h : NoDupKeys l) : lookupA (eraseA l k) k = none := by
  induction l with
  | nil => rfl
  | cons p ps ih =>
    obtain ⟨p1, p2⟩ := p
    simp only [NoDupKeys, List.map_cons, List.nodup_cons] at h
    by_cases hp : p1 = k
    · subst hp
      simpa [eraseA] using lookupA_eq_none_of_not_mem_keys h.1
    · simp [eraseA, hp, lookupA, ih h.2]

theorem lookupA_eraseA_ne {α : Type} (l : List (String × α)) {k k' : String}
    (h : k' ≠ k) : lookupA (eraseA l k) k' = lookupA l k' := by
  have hk : ¬(k = k') := fun hh => h hh.symm
  induction l with
  | nil => rfl
  | cons p ps ih =>
    obtain ⟨p1, p2⟩ := p
    by_cases hp : p1 = k
    · subst hp
      simp [eraseA, lookupA, hk]
    · simp [eraseA, hp, lookupA, ih]

theorem lookupA_mem {α : Type} {l : List (String × α)} {k : String} {v : α}
    (h : lookupA l k = some v) : (k, v) ∈ l := by
  induction l with
  | nil => simp [lookupA] at h
  | cons p ps ih =>
    obtain ⟨p1, p2⟩ := p
    by_cases hp : p1 = k
    · subst hp
      have h2 : p2 = v := by simpa [lookupA] using h
      subst h2
      exact List.mem_cons_self _ _
    · simp only [lookupA, hp, if_neg, not_false_iff] at h
      exact List.mem_cons_of_mem _ (ih h)

theorem lookupA_append_some {α : Type} {l : List (String × α)} (l' : List (String × α))
    {k : String} {v : α} (h : lookupA l k = some v) : lookupA (l ++ l') k = some v := by
  induction l with
  | nil => simp [lookupA] at h
  | cons p ps ih =>
    obtain ⟨p1, p2⟩ := p
    by_cases hp : p1 = k
    · simp_all [lookupA]
    · simp_all [lookupA]

theorem lookupA_append_none {α : Type} {l : List (String × α)} (l' : List (String × α))
    {k : String} (h : lookupA l k = none) : lookupA (l ++ l') k = lookupA l' k := by
  induction l with
  | nil => rfl
  | cons p ps ih =>
    obtain ⟨p1, p2⟩ := p
    by_cases hp : p1 = k
    · simp [lookupA, hp] at h
    · simp_all [lookupA]

theorem mem_setA {α : Type} {l : List (String × α)} {k : String} {v : α}
    {q : String × α} (h : q ∈ setA l k v) : q ∈ l ∨ q = (k, v) := by
  induction l with
  | nil =>
    right
    simpa [setA] using h
  | cons p ps ih =>
    obtain ⟨p1, p2⟩ := p
    by_cases hp : p1 = k
    · rw [show setA ((p1, p2) :: ps) k v = (k, v) :: ps by simp [setA, hp]] at h
      rcases List.mem_cons.mp h with h1 | h1
      · right; exact h1
      · left; exact List.mem_cons_of_mem _ h1
    · rw [show setA ((p1, p2) :: ps) k v = (p1, p2) :: setA ps k v by simp [setA, hp]] at h
      rcases List.mem_cons.mp h with h1 | h1
      · left; rw [h1]; exact List.mem_cons_self _ _
      · rcases ih h1 with h2 | h2
        · left; exact List.mem_cons_of_mem _ h2
        · right; exact h2

theorem mem_eraseA {α : Type} {l : List (String × α)} {k : String}
    {q : String × α} (h : q ∈ eraseA l k) : q ∈ l := by
  induction l with
  | nil => simp [eraseA] at h
  | cons p ps ih =>
    obtain ⟨p1, p2⟩ := p
    by_cases hp : p1 = k
    · rw [show eraseA ((p1, p2) :: ps) k = ps by simp [eraseA, hp]] at h
      exact List.mem_cons_of_mem _ h
    · rw [show eraseA ((p1, p2) :: ps) k = (p1, p2) :: eraseA ps k by simp [eraseA, hp]] at h
      rcases List.mem_cons.mp h with h1 | h1
      · rw [h1]; exact List.mem_cons_self _ _
      · exact List.mem_cons_of_mem _ (ih h1)

theorem keys_setA_sub {α : Type} {l : List (String × α)} {k x : String} {v : α}
    (h : x ∈ (setA l k v).map Prod.fst) : x ∈ l.map Prod.fst ∨ x = k := by
  rcases List.mem_map.mp h with ⟨q, hq, hqx⟩
  rcases mem_setA hq with h1 | h1
  · left; exact hqx ▸ List.mem_map_of_mem _ h1
  · right; rw [h1] at hqx; exact hqx.symm

theorem nodup_setA {α : Type} {l : List (String × α)} {k : String} {v : α}
    (h : NoDupKeys l) : NoDupKeys (setA l k v) := by
  induction l with
  | nil => simp [NoDupKeys, setA]
  | cons p ps ih =>
    obtain ⟨p1, p2⟩ := p
    simp only [NoDupKeys, List.map_cons, List.nodup_cons] at h
    by_cases hp : p1 = k
    · rw [show setA ((p1, p2) :: ps) k v = (k, v) :: ps by simp [setA, hp]]
      simp only [NoDupKeys, List.map_cons, List.nodup_cons]
      exact ⟨hp ▸ h.1, h.2⟩
    · rw [show setA ((p1, p2) :: ps) k v = (p1, p2) :: setA ps k v by simp [setA, hp]]
      simp only [NoDupKeys, List.map_cons, List.nodup_cons]
      exact ⟨fun hmem => (keys_setA_sub hmem).elim h.1 hp, ih h.2⟩

theorem nodup_eraseA {α : Type} {l : List (String × α)} {k : String}
    (h : NoDupKeys l) : NoDupKeys (eraseA l k) := by
  induction l with
  | nil => exact h
  | cons p ps ih =>
    obtain ⟨p1, p2⟩ := p
    simp only [NoDupKeys, List.map_cons, List.nodup_cons] at h
    by_cases hp : p1 = k
    · rw [show eraseA ((p1, p2) :: ps) k = ps by simp [eraseA, hp]]
      exact h.2
    · rw [show eraseA ((p1, p2) :: ps) k = (p1, p2) :: eraseA ps k by simp [eraseA, hp]]
      simp only [NoDupKeys, List.map_cons, List.nodup_cons]
      refine ⟨fun hmem => ?_, ih h.2⟩
      rcases List.mem_map.mp hmem with ⟨q, hq, hqx⟩
      exact h.1 (hqx ▸ List.mem_map_of_mem _ (mem_eraseA hq))

theorem eraseA_of_lookupA_none {α : Type} {l : List (String × α)} {k : String}
    (h : lookupA l k = none) : eraseA l k = l := by
  induction l with
  | nil => rfl
  | cons p ps ih =>
    obtain ⟨p1, p2⟩ := p
    by_cases hp : p1 = k
    · simp [lookupA, hp] at h
    · simp only [lookupA, hp, if_neg, not_false_iff] at h
      simp [eraseA, hp, ih h]

theorem lookupA_map_value {α β : Type} (l : List (String × α)) (f : α → β) (k : String) :
    lookupA (l.map (fun p => (p.1, f p.2))) k = (lookupA l k).map f := by
  induction l with
  | nil => rfl
  | cons p ps ih =>
    obtain ⟨p1, p2⟩ := p
    by_cases hp : p1 = k
    · simp [lookupA, hp]
    · simp [lookupA, hp, ih]

theorem lookupA_eraseA_none {α : Type} {l : List (String × α)} {k x : String}
    (h : lookupA l x = none) : lookupA (eraseA l k) x = none := by
  by_cases hk : x = k
  · subst hk
    induction l with
    | nil => rfl
    | cons p ps ih =>
      obtain ⟨p1, p2⟩ := p
      by_cases hp : p1 = x
      · simp [lookupA, hp] at h
      · simp only [lookupA, hp, if_neg, not_false_iff] at h
        simp [eraseA, hp, lookupA, ih h]
  · rw [lookupA_eraseA_ne _ hk]; exact h

theorem lookupA_setA_isSome {α : Type} {l : List (String × α)} {k x : String} {v : α}
    (h : (lookupA l x).isSome) : (lookupA (setA l k v) x).isSome := by
  by_cases hk : x = k
  · subst hk; simp [lookupA_setA_self]
  · rw [lookupA_setA_ne _ _ hk]; exact h

theorem mem_setAdd_iff {l : List String} {x y : String} :
    x ∈ setAdd l y ↔ x ∈ l ∨ x = y := by
  unfold setAdd
  by_cases h : y ∈ l
  · simp only [h, if_pos]
    constructor
    · exact Or.inl
    · rintro (hx | rfl)
      · exact hx
      · exact h
  · simp [h]

theorem mem_setAdd_self (l : List String) (x : String) : x ∈ setAdd l x :=
  mem_setAdd_iff.mpr (Or.inr rfl)

theorem mem_setAdd_of_mem {l : List String} {x : String} (y : String) (h : x ∈ l) :
    x ∈ setAdd l y := mem_setAdd_iff.mpr (Or.inl h)

theorem setAdd_ne_nil (l : List String) (x : String) : setAdd l x ≠ [] := by
  unfold setAdd
  by_cases h : x ∈ l
  · rw [if_pos h]
    intro hl
    rw [hl] at h
    simp at h
  · rw [if_neg h]
    simp

theorem lookupA_of_mem_nodup {α : Type} {l : List (String × α)} {k : String} {v : α}
    (hnd : NoDupKeys l) (h : (k, v) ∈ l) : lookupA l k = some v := by
  induction l with
  | nil => simp at h
  | cons p ps ih =>
    obtain ⟨p1, p2⟩ := p
    simp only [NoDupKeys, List.map_cons, List.nodup_cons] at hnd
    rcases List.mem_cons.mp h with h1 | h1
    · obtain ⟨hk, hv⟩ := Prod.ext_iff.mp h1
      subst hk
      subst hv
      simp [lookupA]
    · have hp : ¬(p1 = k) := by
        intro hh
        exact hnd.1 (hh.symm ▸ List.mem_map_of_mem Prod.fst h1)
      simp [lookupA, hp, ih hnd.2 h1]

/-! ## Server operation characterizations -/

theorem chanMembers_chanJoin (channels : List (String × List String)) (r sid r' : String) :
    chanMembers (chanJoin channels r sid) r' =
      if r' = r then setAdd (chanMembers channels r) sid else chanMembers channels r' := by
  unfold chanJoin chanMembers
  by_cases h : r' = r
  · subst h
    simp [lookupA_setA_self]
  · simp [lookupA_setA_ne _ _ h, h]

theorem mem_chanMembers_chanJoin {channels : List (String × List String)} {r' x : String}
    (r sid : String) (h : x ∈ chanMembers channels r') :
    x ∈ chanMembers (chanJoin channels r sid) r' := by
  by_cases hr : r' = r
  · subst hr
    rw [chanMembers_chanJoin, if_pos rfl]
    exact mem_setAdd_of_mem _ h
  · rw [chanMembers_chanJoin, if_neg hr]
    exact h

theorem self_mem_chanMembers_chanJoin (channels : List (String × List String))
    (r sid : String) : sid ∈ chanMembers (chanJoin channels r sid) r := by
  rw [chanMembers_chanJoin, if_pos rfl]
  exact mem_setAdd_self _ _

theorem chanMembers_filter (channels : List (String × List String)) (sid r : String) :
    chanMembers (channels.map (fun p => (p.1, p.2.filter (fun x => x ≠ sid)))) r =
      (chanMembers channels r).filter (fun x => x ≠ sid) := by
  unfold chanMembers
  rw [lookupA_map_value]
  cases lookupA channels r <;> simp

theorem lookupA_leaveRoom_ne (rooms : List (String × Room)) (sid : String) {rid r : String}
    (h : r ≠ rid) : lookupA (leaveRoom sid rid rooms) r = lookupA rooms r := by
  cases hl : lookupA rooms rid with
  | none => simp [leaveRoom, hl]
  | some room =>
    simp only [leaveRoom, hl]
    by_cases he : ((room.users.filter (fun x => x ≠ sid)).isEmpty = true)
    · rw [if_pos he]
      exact lookupA_eraseA_ne _ h
    · rw [if_neg he]
      exact lookupA_setA_ne _ _ h

theorem lookupA_leaveRoom_none {rooms : List (String × Room)} {sid rid : String}
    (hl : lookupA rooms rid = none) : leaveRoom sid rid rooms = rooms := by
  simp [leaveRoom, hl]

theorem lookupA_leaveRoom_self_none {rooms : List (String × Room)} {sid rid : String}
    {room : Room} (hl : lookupA rooms rid = some room)
    (he : (room.users.filter (fun x => x ≠ sid)).isEmpty = true) (hnd : NoDupKeys rooms) :
    lookupA (leaveRoom sid rid rooms) rid = none := by
  simp only [leaveRoom, hl]
  rw [if_pos he]
  exact lookupA_eraseA_self hnd

theorem lookupA_leaveRoom_self_some {rooms : List (String × Room)} {sid rid : String}
    {room : Room} (hl : lookupA rooms rid = some room)
    (he : ¬((room.users.filter (fun x => x ≠ sid)).isEmpty = true)) :
    lookupA (leaveRoom sid rid rooms) rid =
      some ⟨room.users.filter (fun x => x ≠ sid), eraseA room.locations sid⟩ := by
  simp only [leaveRoom, hl]
  rw [if_neg he]
  exact lookupA_setA_self _ _ _

/-- Any room entry surviving `leaveRoom` comes from an entry of the
original registry; on the left room itself the users are filtered and
no longer contain the leaver. -/
theorem lookupA_leaveRoom_sub {rooms : List (String × Room)} (hnd : NoDupKeys rooms)
    {sid rid r : String} {room' : Room}
    (h : lookupA (leaveRoom sid rid rooms) r = some room') :
    ∃ room, lookupA rooms r = some room ∧ (∀ u ∈ room'.users, u ∈ room.users) ∧
      (r = rid → sid ∉ room'.users) := by
  by_cases hr : r = rid
  · subst hr
    cases hl : lookupA rooms r with
    | none =>
      rw [lookupA_leaveRoom_none hl, hl] at h
      cases h
    | some room =>
      by_cases he : ((room.users.filter (fun x => x ≠ sid)).isEmpty = true)
      · rw [lookupA_leaveRoom_self_none hl he hnd] at h
        cases h
      · rw [lookupA_leaveRoom_self_some hl he] at h
        have hh := Option.some.inj h
        refine ⟨room, rfl, ?_, ?_⟩
        · intro u hu
          rw [← hh] at hu
          simpa using (List.mem_filter.mp hu).1
        · intro _ hmem
          rw [← hh] at hmem
          have := (List.mem_filter.mp hmem).2
          simp at this
  · rw [lookupA_leaveRoom_ne _ _ hr] at h
    exact ⟨room', h, fun u hu => hu, fun hc => absurd hc hr⟩

theorem lookupA_registerJoin_self (rooms : List (String × Room)) (rid sid : String) :
    lookupA (registerJoin rooms rid sid) rid =
      some ⟨setAdd ((lookupA rooms rid).getD ⟨[], []⟩).users sid,
            ((lookupA rooms rid).getD ⟨[], []⟩).locations⟩ := by
  unfold registerJoin
  cases hl : lookupA rooms rid with
  | none => simp [lookupA_setA_self]
  | some room => simp [lookupA_setA_self]

theorem lookupA_registerJoin_ne (rooms : List (String × Room)) (sid : String) {rid r : String}
    (h : r ≠ rid) : lookupA (registerJoin rooms rid sid) r = lookupA rooms r := by
  unfold registerJoin
  cases hl : lookupA rooms rid with
  | none => exact lookupA_setA_ne _ _ h
  | some room => exact lookupA_setA_ne _ _ h

theorem nodup_leaveRoom {rooms : List (String × Room)} (hnd : NoDupKeys rooms)
    (sid rid : String) : NoDupKeys (leaveRoom sid rid rooms) := by
  cases hl : lookupA rooms rid with
  | none => rw [lookupA_leaveRoom_none hl]; exact hnd
  | some room =>
    simp only [leaveRoom, hl]
    by_cases he : ((room.users.filter (fun x => x ≠ sid)).isEmpty = true)
    · rw [if_pos he]
      exact nodup_eraseA hnd
    · rw [if_neg he]
      exact nodup_setA hnd

theorem nodup_registerJoin {rooms : List (String × Room)} (hnd : NoDupKeys rooms)
    (rid sid : String) : NoDupKeys (registerJoin rooms rid sid) := by
  unfold registerJoin
  cases lookupA rooms rid with
  | none => exact nodup_setA hnd
  | some room => exact nodup_setA hnd

theorem nodup_joinRoomsBefore {st : ServerState} (hnd : NoDupKeys st.rooms) (sid : String) :
    NoDupKeys (joinRoomsBefore st sid) := by
  unfold joinRoomsBefore
  cases lookupA st.sockRoom sid with
  | none => exact hnd
  | some old => exact nodup_leaveRoom hnd sid old

/-! ## Handler state equations -/

theorem handleJoin_state (st : ServerState) (sid rid : String) :
    (handleJoin st sid rid).1 =
      ⟨registerJoin (joinRoomsBefore st sid) rid sid, setA st.sockRoom sid rid,
        chanJoin st.channels rid sid⟩ := rfl

theorem handleJoin_msgs (st : ServerState) (sid rid : String) :
    (handleJoin st sid rid).2 =
      ((chanMembers (chanJoin st.channels rid sid) rid).filter (fun x => x ≠ sid)).map
        (fun t => ServerMsg.userJoined t sid) ++
      [ServerMsg.roomState sid
        (((lookupA (registerJoin (joinRoomsBefore st sid) rid sid) rid).getD
            ⟨[], []⟩).users.filter (fun x => x ≠ sid))
        (((lookupA (registerJoin (joinRoomsBefore st sid) rid sid) rid).getD
            ⟨[], []⟩).locations.map (fun p => ⟨p.1, p.2.lat, p.2.lng⟩))] := rfl

theorem handleSignal_state (st : ServerState) (sid rid : String) (toId : Option String)
    (payload : String) : (handleSignal st sid rid toId payload).1 = st := by
  unfold handleSignal
  by_cases h : lookupA st.sockRoom sid = some rid
  · rw [if_pos h]
    cases toId <;> rfl
  · rw [if_neg h]

theorem handleLocation_noop_room (st : ServerState) {sid rid : String} (la ln : Coord)
    (h : ¬(lookupA st.sockRoom sid = some rid)) :
    handleLocation st sid rid la ln = (st, []) := by
  unfold handleLocation
  rw [if_neg h]

theorem handleLocation_noop_missing (st : ServerState) {sid rid : String} (la ln : Coord)
    (h2 : lookupA st.rooms rid = none) : handleLocation st sid rid la ln = (st, []) := by
  unfold handleLocation
  by_cases h : lookupA st.sockRoom sid = some rid
  · simp [h, h2]
  · simp [h]

theorem handleLocation_some (st : ServerState) {sid rid : String} {room : Room} (la ln : Coord)
    (h1 : lookupA st.sockRoom sid = some rid) (h2 : lookupA st.rooms rid = some room) :
    handleLocation st sid rid la ln =
      (⟨setA st.rooms rid ⟨room.users, setA room.locations sid ⟨la, ln⟩⟩,
        st.sockRoom, st.channels⟩,
       ((chanMembers st.channels rid).filter (fun x => x ≠ sid)).map
         (fun x => ServerMsg.locationUpdate x rid sid la ln)) := by
  unfold handleLocation
  simp [h1, h2]

theorem handleDisconnect_none (st : ServerState) {sid : String}
    (h : lookupA st.sockRoom sid = none) :
    handleDisconnect st sid =
      (⟨st.rooms, eraseA st.sockRoom sid,
        st.channels.map (fun p => (p.1, p.2.filter (fun x => x ≠ sid)))⟩, []) := by
  unfold handleDisconnect
  simp [h]

theorem handleDisconnect_some (st : ServerState) {sid r : String}
    (h : lookupA st.sockRoom sid = some r) :
    handleDisconnect st sid =
      (⟨leaveRoom sid r st.rooms, eraseA st.sockRoom sid,
        st.channels.map (fun p => (p.1, p.2.filter (fun x => x ≠ sid)))⟩,
       (chanMembers (st.channels.map (fun p => (p.1, p.2.filter (fun x => x ≠ sid)))) r).map
         (fun t => ServerMsg.userLeft t sid)) := by
  unfold handleDisconnect
  simp [h]

/-! ## Invariant preservation -/

theorem leaveRoom_user_facts {st : ServerState} (hnd : NoDupKeys st.rooms)
    (hro : RoomOwner st) {sid rOld : String} (hsr : lookupA st.sockRoom sid = some rOld)
    {r : String} {room' : Room} (h : lookupA (leaveRoom sid rOld st.rooms) r = some room') :
    ∃ room, lookupA st.rooms r = some room ∧ (∀ u ∈ room'.users, u ∈ room.users) ∧
      sid ∉ room'.users := by
  obtain ⟨room, hl, hsub, hrid⟩ := lookupA_leaveRoom_sub hnd h
  refine ⟨room, hl, hsub, ?_⟩
  by_cases hr : r = rOld
  · exact hrid hr
  · intro hc
    have hx := hro _ (lookupA_mem hl) sid (hsub _ hc)
    rw [hsr] at hx
    exact hr (Option.some.inj hx).symm

theorem joinRoomsBefore_user_facts {st : ServerState} (hnd : NoDupKeys st.rooms)
    (hro : RoomOwner st) {sid r : String} {room' : Room}
    (h : lookupA (joinRoomsBefore st sid) r = some room') :
    ∃ room, lookupA st.rooms r = some room ∧ (∀ u ∈ room'.users, u ∈ room.users) ∧
      sid ∉ room'.users := by
  cases hsr : lookupA st.sockRoom sid with
  | none =>
    unfold joinRoomsBefore at h
    rw [hsr] at h
    refine ⟨room', h, fun u hu => hu, fun hc => ?_⟩
    have hx := hro _ (lookupA_mem h) sid hc
    rw [hsr] at hx
    cases hx
  | some old =>
    unfold joinRoomsBefore at h
    rw [hsr] at h
    exact leaveRoom_user_facts hnd hro hsr h

theorem roomsNonempty_setA {rooms : List (String × Room)} (hnd : NoDupKeys rooms)
    (hne : ∀ q ∈ rooms, q.2.users ≠ []) {rid : String} {newRoom : Room}
    (hnew : newRoom.users ≠ []) : ∀ q ∈ setA rooms rid newRoom, q.2.users ≠ [] := by
  intro q hq
  have hlq := lookupA_of_mem_nodup (nodup_setA hnd) hq
  by_cases hr : q.1 = rid
  · rw [hr, lookupA_setA_self] at hlq
    rw [← Option.some.inj hlq]
    exact hnew
  · rw [lookupA_setA_ne _ _ hr] at hlq
    exact hne _ (lookupA_mem hlq)

theorem roomsNonempty_leaveRoom {rooms : List (String × Room)} (hnd : NoDupKeys rooms)
    (hne : ∀ q ∈ rooms, q.2.users ≠ []) (sid rid : String) :
    ∀ q ∈ leaveRoom sid rid rooms, q.2.users ≠ [] := by
  intro q hq
  have hlq := lookupA_of_mem_nodup (nodup_leaveRoom hnd sid rid) hq
  by_cases hr : q.1 = rid
  · rw [hr] at hlq
    cases hl : lookupA rooms rid with
    | none =>
      rw [lookupA_leaveRoom_none hl] at hlq
      exact hne (rid, q.2) (lookupA_mem hlq)
    | some room =>
      by_cases he : ((room.users.filter (fun x => x ≠ sid)).isEmpty = true)
      · rw [lookupA_leaveRoom_self_none hl he hnd] at hlq
        cases hlq
      · rw [lookupA_leaveRoom_self_some hl he] at hlq
        rw [← Option.some.inj hlq]
        simpa [List.isEmpty_iff] using he
  · rw [lookupA_leaveRoom_ne _ _ hr] at hlq
    exact hne _ (lookupA_mem hlq)

theorem roomsNonempty_registerJoin {rooms : List (String × Room)} (hnd : NoDupKeys rooms)
    (hne : ∀ q ∈ rooms, q.2.users ≠ []) (rid sid : String) :
    ∀ q ∈ registerJoin rooms rid sid, q.2.users ≠ [] := by
  unfold registerJoin
  cases lookupA rooms rid with
  | none =>
    exact @roomsNonempty_setA rooms hnd hne rid ⟨setAdd [] sid, []⟩ (setAdd_ne_nil [] sid)
  | some room =>
    exact @roomsNonempty_setA rooms hnd hne rid ⟨setAdd room.users sid, room.locations⟩
      (setAdd_ne_nil room.users sid)

theorem registryWF_initial : RegistryWF initialServerState := by
  constructor
  · simp [NoDupKeys, initialServerState]
  · intro p hp
    simp [initialServerState] at hp

theorem registryWF_step (st : ServerState) (e : ServerEvent) (h : RegistryWF st) :
    RegistryWF (serverStep st e).1 := by
  obtain ⟨hnd, hne⟩ := h
  cases e with
  | connect sid => exact ⟨hnd, hne⟩
  | joinRoom sid rid =>
    show RegistryWF (handleJoin st sid rid).1
    rw [handleJoin_state]
    have hndRB := nodup_joinRoomsBefore hnd sid
    have hneRB : ∀ q ∈ joinRoomsBefore st sid, q.2.users ≠ [] := by
      unfold joinRoomsBefore
      cases lookupA st.sockRoom sid with
      | none => exact hne
      | some old => exact roomsNonempty_leaveRoom hnd hne sid old
    exact ⟨nodup_registerJoin hndRB rid sid, roomsNonempty_registerJoin hndRB hneRB rid sid⟩
  | webrtcSignal sid rid fromId toId payload =>
    show RegistryWF (handleSignal st sid rid toId payload).1
    rw [handleSignal_state]
    exact ⟨hnd, hne⟩
  | locationUpdate sid rid la ln =>
    show RegistryWF (handleLocation st sid rid la ln).1
    by_cases h1 : lookupA st.sockRoom sid = some rid
    · cases h2 : lookupA st.rooms rid with
      | none =>
        rw [handleLocation_noop_missing st la ln h2]
        exact ⟨hnd, hne⟩
      | some room =>
        rw [handleLocation_some st la ln h1 h2]
        refine ⟨nodup_setA hnd, ?_⟩
        have hroom : (⟨room.users, setA room.locations sid ⟨la, ln⟩⟩ : Room).users ≠ [] :=
          hne _ (lookupA_mem h2)
        exact roomsNonempty_setA hnd hne hroom
    · rw [handleLocation_noop_room st la ln h1]
      exact ⟨hnd, hne⟩
  | disconnect sid =>
    show RegistryWF (handleDisconnect st sid).1
    cases hsr : lookupA st.sockRoom sid with
    | none =>
      rw [handleDisconnect_none st hsr]
      exact ⟨hnd, hne⟩
    | some r =>
      rw [handleDisconnect_some st hsr]
      exact ⟨nodup_leaveRoom hnd sid r, roomsNonempty_leaveRoom hnd hne sid r⟩

theorem registryWF_run (es : List ServerEvent) : RegistryWF (serverRun es).1 := by
  have key : ∀ (l : List ServerEvent) (st : ServerState), RegistryWF st →
      RegistryWF (serverRunFrom st l).1 := by
    intro l
    induction l with
    | nil => intro st h; exact h
    | cons e rest ih =>
      intro st h
      exact ih _ (registryWF_step st e h)
  exact key es initialServerState registryWF_initial

theorem serverWF_initial : ServerWF initialServerState := by
  refine ⟨?_, ?_, ?_⟩
  · simp [NoDupKeys, initialServerState]
  · intro p hp
    simp [initialServerState] at hp
  · intro p hp
    simp [initialServerState] at hp

theorem serverWF_step (st : ServerState) (e : ServerEvent) (h : ServerWF st) :
    ServerWF (serverStep st e).1 := by
  obtain ⟨hnd, hcc, hro⟩ := h
  cases e with
  | connect sid =>
    refine ⟨hnd, ?_, hro⟩
    intro p hp u hu
    exact mem_chanMembers_chanJoin _ _ (hcc p hp u hu)
  | joinRoom sid rid =>
    show ServerWF (handleJoin st sid rid).1
    rw [handleJoin_state]
    have hndRB := nodup_joinRoomsBefore hnd sid
    have hndR3 := nodup_registerJoin hndRB rid sid
    refine ⟨hndR3, ?_, ?_⟩
    · intro p hp u hu
      have hl := lookupA_of_mem_nodup hndR3 hp
      by_cases hpr : p.1 = rid
      · rw [hpr, lookupA_registerJoin_self] at hl
        have hp2 := Option.some.inj hl
        rw [← hp2] at hu
        rcases mem_setAdd_iff.mp hu with hub | hus
        · cases hB : lookupA (joinRoomsBefore st sid) rid with
          | none =>
            rw [hB] at hub
            simp at hub
          | some roomB =>
            rw [hB] at hub
            obtain ⟨room, hlr, hsub, _⟩ := joinRoomsBefore_user_facts hnd hro hB
            have := hcc _ (lookupA_mem hlr) u (hsub u hub)
            rw [hpr]
            exact mem_chanMembers_chanJoin _ _ this
        · rw [hpr, hus]
          exact self_mem_chanMembers_chanJoin _ _ _
      · rw [lookupA_registerJoin_ne _ _ hpr] at hl
        obtain ⟨room, hlr, hsub, _⟩ := joinRoomsBefore_user_facts hnd hro hl
        exact mem_chanMembers_chanJoin _ _ (hcc _ (lookupA_mem hlr) u (hsub u hu))
    · intro p hp u hu
      have hl := lookupA_of_mem_nodup hndR3 hp
      by_cases hpr : p.1 = rid
      · rw [hpr, lookupA_registerJoin_self] at hl
        have hp2 := Option.some.inj hl
        rw [← hp2] at hu
        rcases mem_setAdd_iff.mp hu with hub | hus
        · cases hB : lookupA (joinRoomsBefore st sid) rid with
          | none =>
            rw [hB] at hub
            simp at hub
          | some roomB =>
            rw [hB] at hub
            obtain ⟨room, hlr, hsub, hnsid⟩ := joinRoomsBefore_user_facts hnd hro hB
            have hune : u ≠ sid := fun hc => hnsid (hc ▸ hub)
            rw [hpr, lookupA_setA_ne _ _ hune]
            exact hro _ (lookupA_mem hlr) u (hsub u hub)
        · rw [hpr, hus, lookupA_setA_self]
      · rw [lookupA_registerJoin_ne _ _ hpr] at hl
        obtain ⟨room, hlr, hsub, hnsid⟩ := joinRoomsBefore_user_facts hnd hro hl
        have hune : u ≠ sid := fun hc => hnsid (hc ▸ hu)
        rw [lookupA_setA_ne _ _ hune]
        exact hro _ (lookupA_mem hlr) u (hsub u hu)
  | webrtcSignal sid rid fromId toId payload =>
    show ServerWF (handleSignal st sid rid toId payload).1
    rw [handleSignal_state]
    exact ⟨hnd, hcc, hro⟩
  | locationUpdate sid rid la ln =>
    show ServerWF (handleLocation st sid rid la ln).1
    by_cases h1 : lookupA st.sockRoom sid = some rid
    · cases h2 : lookupA st.rooms rid with
      | none =>
        rw [handleLocation_noop_missing st la ln h2]
        exact ⟨hnd, hcc, hro⟩
      | some room =>
        rw [handleLocation_some st la ln h1 h2]
        have hndS := @nodup_setA Room st.rooms rid
          ⟨room.users, setA room.locations sid ⟨la, ln⟩⟩ hnd
        refine ⟨hndS, ?_, ?_⟩
        · intro p hp u hu
          have hl := lookupA_of_mem_nodup hndS hp
          by_cases hpr : p.1 = rid
          · rw [hpr, lookupA_setA_self] at hl
            have hp2 := Option.some.inj hl
            rw [← hp2] at hu
            rw [hpr]
            exact hcc _ (lookupA_mem h2) u hu
          · rw [lookupA_setA_ne _ _ hpr] at hl
            exact hcc _ (lookupA_mem hl) u hu
        · intro p hp u hu
          have hl := lookupA_of_mem_nodup hndS hp
          by_cases hpr : p.1 = rid
          · rw [hpr, lookupA_setA_self] at hl
            have hp2 := Option.some.inj hl
            rw [← hp2] at hu
            rw [hpr]
            exact hro _ (lookupA_mem h2) u hu
          · rw [lookupA_setA_ne _ _ hpr] at hl
            exact hro _ (lookupA_mem hl) u hu
    · rw [handleLocation_noop_room st la ln h1]
      exact ⟨hnd, hcc, hro⟩
  | disconnect sid =>
    show ServerWF (handleDisconnect st sid).1
    cases hsr : lookupA st.sockRoom sid with
    | none =>
      rw [handleDisconnect_none st hsr]
      refine ⟨hnd, ?_, ?_⟩
      · intro p hp u hu
        have hune : u ≠ sid := by
          intro hc
          have hx := hro p hp u hu
          rw [hc, hsr] at hx
          cases hx
        rw [chanMembers_filter]
        simp only [List.mem_filter, decide_eq_true_eq]
        exact ⟨hcc p hp u hu, hune⟩
      · intro p hp u hu
        have hune : u ≠ sid := by
          intro hc
          have hx := hro p hp u hu
          rw [hc, hsr] at hx
          cases hx
        rw [lookupA_eraseA_ne _ hune]
        exact hro p hp u hu
    | some rOld =>
      rw [handleDisconnect_some st hsr]
      have hndL := nodup_leaveRoom hnd sid rOld
      refine ⟨hndL, ?_, ?_⟩
      · intro p hp u hu
        have hl := lookupA_of_mem_nodup hndL hp
        obtain ⟨room, hlr, hsub, hnsid⟩ := leaveRoom_user_facts hnd hro hsr hl
        have hune : u ≠ sid := fun hc => hnsid (hc ▸ hu)
        rw [chanMembers_filter]
        simp only [List.mem_filter, decide_eq_true_eq]
        exact ⟨hcc _ (lookupA_mem hlr) u (hsub u hu), hune⟩
      · intro p hp u hu
        have hl := lookupA_of_mem_nodup hndL hp
        obtain ⟨room, hlr, hsub, hnsid⟩ := leaveRoom_user_facts hnd hro hsr hl
        have hune : u ≠ sid := fun hc => hnsid (hc ▸ hu)
        rw [lookupA_eraseA_ne _ hune]
        exact hro _ (lookupA_mem hlr) u (hsub u hu)

theorem serverWF_run (es : List ServerEvent) : ServerWF (serverRun es).1 := by
  have key : ∀ (l : List ServerEvent) (st : ServerState), ServerWF st →
      ServerWF (serverRunFrom st l).1 := by
    intro l
    induction l with
    | nil => intro st h; exact h
    | cons e rest ih =>
      intro st h
      exact ih _ (serverWF_step st e h)
  exact key es initialServerState serverWF_initial

/-! ## Claim theorems -/

/-- C3: after any single event (join, leave-via-join, or disconnect), a
room entry exists in the registry iff its participant set is non-empty:
the invariant holds initially, is preserved by every event, and holds in
every reachable state; in particular a join always leaves the joined
room present (created on first join), and `leaveRoom` deletes a room in
the same step that empties it (a registry entry with an empty `users`
set never survives an event).  The converse direction of the "iff" is
representational: participant sets exist only inside registry entries. -/
theorem room_exists_iff_nonempty :
    RegistryWF initialServerState ∧
    (∀ (st : ServerState) (e : ServerEvent), RegistryWF st → RegistryWF (serverStep st e).1) ∧
    (∀ es : List ServerEvent, RegistryWF (serverRun es).1) ∧
    (∀ (st : ServerState) (sid rid : String),
      lookupA (serverStep st (ServerEvent.joinRoom sid rid)).1.rooms rid ≠ none) := by
  refine ⟨registryWF_initial, registryWF_step, registryWF_run, ?_⟩
  intro st sid rid
  show lookupA (handleJoin st sid rid).1.rooms rid ≠ none
  rw [handleJoin_state]
  show lookupA (registerJoin (joinRoomsBefore st sid) rid sid) rid ≠ none
  rw [lookupA_registerJoin_self]
  simp

theorem room_exists_iff_nonempty_witness :
    RegistryWF (serverStep sampleState (ServerEvent.disconnect "b")).1 :=
  room_exists_iff_nonempty.2.1 sampleState (ServerEvent.disconnect "b") (by decide)

/-- C10: a transport disconnect of a connection that never joined a room
leaves the room registry and the per-socket room assignments unchanged
and emits nothing (in particular no `user-left`). -/
theorem disconnect_without_room_noop (st : ServerState) (sid : String)
    (h : lookupA st.sockRoom sid = none) :
    (serverStep st (ServerEvent.disconnect sid)).1.rooms = st.rooms ∧
    (serverStep st (ServerEvent.disconnect sid)).1.sockRoom = st.sockRoom ∧
    (serverStep st (ServerEvent.disconnect sid)).2 = [] := by
  show (handleDisconnect st sid).1.rooms = st.rooms ∧
    (handleDisconnect st sid).1.sockRoom = st.sockRoom ∧
    (handleDisconnect st sid).2 = []
  rw [handleDisconnect_none st h]
  exact ⟨rfl, eraseA_of_lookupA_none h, rfl⟩

theorem disconnect_without_room_noop_witness :
    (serverStep sampleState (ServerEvent.disconnect "zzz")).1.rooms = sampleState.rooms ∧
    (serverStep sampleState (ServerEvent.disconnect "zzz")).1.sockRoom = sampleState.sockRoom ∧
    (serverStep sampleState (ServerEvent.disconnect "zzz")).2 = [] :=
  disconnect_without_room_noop sampleState "zzz" (by decide)

/-- C5: every `webrtc-signal` the coordinator forwards (targeted or
broadcast) carries `from = socket.id` of the sender, and the
caller-supplied `from` field has no effect at all: two events differing
only in the supplied `from` produce identical results. -/
theorem signal_from_overwritten (st : ServerState) (sid rid f1 f2 : String)
    (toId : Option String) (payload : String) :
    (∀ m ∈ (serverStep st (ServerEvent.webrtcSignal sid rid f1 toId payload)).2,
       ∃ tgt, m = ServerMsg.webrtcSignal tgt rid sid payload) ∧
    serverStep st (ServerEvent.webrtcSignal sid rid f1 toId payload) =
      serverStep st (ServerEvent.webrtcSignal sid rid f2 toId payload) := by
  constructor
  · intro m hm
    have hm2 : m ∈ (handleSignal st sid rid toId payload).2 := hm
    unfold handleSignal at hm2
    by_cases hg : lookupA st.sockRoom sid = some rid
    · rw [if_pos hg] at hm2
      cases toId with
      | none =>
        simp only [List.mem_map] at hm2
        obtain ⟨x, _, hxe⟩ := hm2
        exact ⟨x, hxe.symm⟩
      | some t =>
        simp only [List.mem_map] at hm2
        obtain ⟨x, _, hxe⟩ := hm2
        exact ⟨x, hxe.symm⟩
    · rw [if_neg hg] at hm2
      simp at hm2
  · rfl

theorem signal_from_overwritten_witness :
    (∃ tgt, ServerMsg.webrtcSignal "b" "r1" "a" "p" =
      ServerMsg.webrtcSignal tgt "r1" "a" "p") ∧
    serverStep sampleState (ServerEvent.webrtcSignal "a" "r1" "spoof1" (some "b") "p") =
      serverStep sampleState (ServerEvent.webrtcSignal "a" "r1" "spoof2" (some "b") "p") :=
  ⟨(signal_from_overwritten sampleState "a" "r1" "spoof1" "spoof2" (some "b") "p").1
      (ServerMsg.webrtcSignal "b" "r1" "a" "p") (by decide),
   (signal_from_overwritten sampleState "a" "r1" "spoof1" "spoof2" (some "b") "p").2⟩

/-- C6: a `location-update` whose stated room differs from the caller's
registered room, or whose stated room is absent from the registry, is a
complete no-op (state unchanged, nothing emitted).  Otherwise the
caller's stored location is overwritten latest-wins (other entries
untouched, everything outside `locations` of that room untouched) and a
`location-update{userId, lat, lng}` is delivered to every other member
of the room (well-formedness gives members ⊆ channel), never to the
caller itself. -/
theorem location_update_guard_and_fanout (st : ServerState) (sid rid : String)
    (la ln : Coord) :
    ((lookupA st.sockRoom sid ≠ some rid ∨ lookupA st.rooms rid = none) →
      serverStep st (ServerEvent.locationUpdate sid rid la ln) = (st, [])) ∧
    (∀ room, lookupA st.sockRoom sid = some rid → lookupA st.rooms rid = some room →
      lookupA (serverStep st (ServerEvent.locationUpdate sid rid la ln)).1.rooms rid =
        some ⟨room.users, setA room.locations sid ⟨la, ln⟩⟩ ∧
      (∀ r, r ≠ rid →
        lookupA (serverStep st (ServerEvent.locationUpdate sid rid la ln)).1.rooms r =
          lookupA st.rooms r) ∧
      (serverStep st (ServerEvent.locationUpdate sid rid la ln)).1.sockRoom = st.sockRoom ∧
      (serverStep st (ServerEvent.locationUpdate sid rid la ln)).1.channels = st.channels ∧
      lookupA (setA room.locations sid ⟨la, ln⟩) sid = some ⟨la, ln⟩ ∧
      (∀ u, u ≠ sid →
        lookupA (setA room.locations sid ⟨la, ln⟩) u = lookupA room.locations u) ∧
      (ServerWF st → ∀ u ∈ room.users, u ≠ sid →
        ServerMsg.locationUpdate u rid sid la ln ∈
          (serverStep st (ServerEvent.locationUpdate sid rid la ln)).2) ∧
      (∀ m ∈ (serverStep st (ServerEvent.locationUpdate sid rid la ln)).2,
        ∃ u, u ≠ sid ∧ m = ServerMsg.locationUpdate u rid sid la ln)) := by
  constructor
  · intro hbad
    show handleLocation st sid rid la ln = (st, [])
    rcases hbad with hbad | hbad
    · exact handleLocation_noop_room st la ln hbad
    · exact handleLocation_noop_missing st la ln hbad
  · intro room h1 h2
    have hstep : serverStep st (ServerEvent.locationUpdate sid rid la ln) =
        handleLocation st sid rid la ln := rfl
    rw [hstep, handleLocation_some st la ln h1 h2]
    refine ⟨lookupA_setA_self _ _ _, ?_, rfl, rfl, lookupA_setA_self _ _ _, ?_, ?_, ?_⟩
    · intro r hr
      exact lookupA_setA_ne _ _ hr
    · intro u hu
      exact lookupA_setA_ne _ _ hu
    · intro hwf u hu hune
      obtain ⟨_, hcc, _⟩ := hwf
      have hch : u ∈ chanMembers st.channels rid := hcc _ (lookupA_mem h2) u hu
      refine List.mem_map.mpr ⟨u, ?_, rfl⟩
      simp only [List.mem_filter, decide_eq_true_eq]
      exact ⟨hch, hune⟩
    · intro m hm
      obtain ⟨x, hx, hxe⟩ := List.mem_map.mp hm
      refine ⟨x, ?_, hxe.symm⟩
      have := (List.mem_filter.mp hx).2
      simpa using this

theorem location_update_guard_and_fanout_witness :
    serverStep sampleState (ServerEvent.locationUpdate "a" "r2" 5 6) = (sampleState, []) ∧
    ServerMsg.locationUpdate "b" "r1" "a" 5 6 ∈
      (serverStep sampleState (ServerEvent.locationUpdate "a" "r1" 5 6)).2 :=
  ⟨(location_update_guard_and_fanout sampleState "a" "r2" 5 6).1 (Or.inl (by decide)),
   ((location_update_guard_and_fanout sampleState "a" "r1" 5 6).2 ⟨["a", "b"], []⟩
      (by decide) (by decide)).2.2.2.2.2.2.1 (by decide) "b" (by decide) (by decide)⟩

/-- C2: on a join, the `user-joined{sid}` broadcast reaches every
current member of the room other than the joiner (well-formedness gives
members ⊆ channel) and is never addressed to the joiner; the
`room-state` snapshot goes only to the joiner and lists exactly the
room's membership with the joiner filtered out, so no one ever receives
a `user-joined` or `room-state` entry naming itself. -/
theorem join_broadcast_excludes_self (st : ServerState) (sid rid : String)
    (hwf : ServerWF st) :
    (∀ room', lookupA (serverStep st (ServerEvent.joinRoom sid rid)).1.rooms rid = some room' →
      (∀ u ∈ room'.users, u ≠ sid →
        ServerMsg.userJoined u sid ∈ (serverStep st (ServerEvent.joinRoom sid rid)).2) ∧
      ServerMsg.roomState sid (room'.users.filter (fun x => x ≠ sid))
        (room'.locations.map (fun p => ⟨p.1, p.2.lat, p.2.lng⟩)) ∈
        (serverStep st (ServerEvent.joinRoom sid rid)).2) ∧
    (∀ t u, ServerMsg.userJoined t u ∈ (serverStep st (ServerEvent.joinRoom sid rid)).2 →
      u = sid ∧ t ≠ sid) ∧
    (∀ t us ls, ServerMsg.roomState t us ls ∈ (serverStep st (ServerEvent.joinRoom sid rid)).2 →
      t = sid ∧ sid ∉ us) := by
  obtain ⟨hnd, hcc, hro⟩ := hwf
  have hstep : serverStep st (ServerEvent.joinRoom sid rid) = handleJoin st sid rid := rfl
  rw [hstep, handleJoin_state, handleJoin_msgs]
  refine ⟨?_, ?_, ?_⟩
  · intro room' hlr'
    have hlr2 := hlr'
    rw [lookupA_registerJoin_self] at hlr'
    have hroomEq := Option.some.inj hlr'
    constructor
    · intro u hu hune
      rw [← hroomEq] at hu
      rcases mem_setAdd_iff.mp hu with hub | hus
      · cases hB : lookupA (joinRoomsBefore st sid) rid with
        | none =>
          rw [hB] at hub
          simp at hub
        | some roomB =>
          rw [hB] at hub
          obtain ⟨room0, hl0, hsub, _⟩ := joinRoomsBefore_user_facts hnd hro hB
          have hch : u ∈ chanMembers (chanJoin st.channels rid sid) rid :=
            mem_chanMembers_chanJoin _ _ (hcc _ (lookupA_mem hl0) u (hsub u hub))
          refine List.mem_append_left _ ?_
          refine List.mem_map.mpr ⟨u, ?_, rfl⟩
          simp only [List.mem_filter, decide_eq_true_eq]
          exact ⟨hch, hune⟩
      · exact absurd hus hune
    · refine List.mem_append_right _ ?_
      rw [hlr2]
      simp
  · intro t u hm
    rcases List.mem_append.mp hm with hmm | hmm
    · obtain ⟨x, hx, hxe⟩ := List.mem_map.mp hmm
      cases hxe
      refine ⟨rfl, ?_⟩
      have := (List.mem_filter.mp hx).2
      simpa using this
    · rw [List.mem_singleton] at hmm
      simp at hmm
  · intro t us ls hm
    rcases List.mem_append.mp hm with hmm | hmm
    · obtain ⟨x, _, hxe⟩ := List.mem_map.mp hmm
      simp at hxe
    · rw [List.mem_singleton] at hmm
      injection hmm with h1 h2 h3
      subst h1
      subst h2
      refine ⟨rfl, ?_⟩
      intro hc
      have := (List.mem_filter.mp hc).2
      simp at this

theorem join_broadcast_excludes_self_witness :
    ServerMsg.userJoined "a" "b" ∈ (serverStep sampleStatePre (ServerEvent.joinRoom "b" "r1")).2 :=
  (((join_broadcast_excludes_self sampleStatePre "b" "r1" (by decide)).1
      ⟨["a", "b"], []⟩ (by decide)).1) "a" (by decide) (by decide)

/-- C4, counterexample: socket `a` (in `r1`, with `b` as other member)
joins `r2`; the claim requires a `user-left{a}` broadcast to `b`, but
the event emits no `user-left` at all, even though `a` is removed from
`r1` (the `join-room` handler calls only the `leaveRoom` helper, which
does not broadcast; `user-left` is emitted only on disconnect). -/
theorem join_switch_no_user_left_counterexample :
    lookupA sampleState.sockRoom "a" = some "r1" ∧
    lookupA sampleState.rooms "r1" = some ⟨["a", "b"], []⟩ ∧
    (serverStep sampleState (ServerEvent.joinRoom "a" "r2")).2.all
      (fun m => !(isUserLeftMsg m)) = true ∧
    lookupA (serverStep sampleState (ServerEvent.joinRoom "a" "r2")).1.rooms "r1" =
      some ⟨["b"], []⟩ := by decide

/-- C4, amended: a join from a connection already registered in a room
first runs the leave procedure for the old room — removing the
participant from the old room's `users` and `locations` and deleting the
old room entry if that empties it — but broadcasts no `user-left` to the
old room's members (that broadcast happens only on disconnect). -/
theorem join_switch_runs_leave_without_user_left (st : ServerState) (sid rid old : String)
    (h : lookupA st.sockRoom sid = some old) :
    (serverStep st (ServerEvent.joinRoom sid rid)).1.rooms =
      registerJoin (leaveRoom sid old st.rooms) rid sid ∧
    (∀ m ∈ (serverStep st (ServerEvent.joinRoom sid rid)).2, isUserLeftMsg m = false) ∧
    (NoDupKeys st.rooms → old ≠ rid →
      lookupA (serverStep st (ServerEvent.joinRoom sid rid)).1.rooms old =
        (match lookupA st.rooms old with
         | none => none
         | some room =>
           if (room.users.filter (fun x => x ≠ sid)).isEmpty then none
           else some ⟨room.users.filter (fun x => x ≠ sid), eraseA room.locations sid⟩)) := by
  have hstep : serverStep st (ServerEvent.joinRoom sid rid) = handleJoin st sid rid := rfl
  have hRB : joinRoomsBefore st sid = leaveRoom sid old st.rooms := by
    unfold joinRoomsBefore
    rw [h]
  refine ⟨?_, ?_, ?_⟩
  · rw [hstep, handleJoin_state]
    show registerJoin (joinRoomsBefore st sid) rid sid = _
    rw [hRB]
  · intro m hm
    rw [hstep, handleJoin_msgs] at hm
    rcases List.mem_append.mp hm with hmm | hmm
    · obtain ⟨x, _, hxe⟩ := List.mem_map.mp hmm
      rw [← hxe]
      rfl
    · rw [List.mem_singleton] at hmm
      rw [hmm]
      rfl
  · intro hnd hor
    rw [hstep, handleJoin_state]
    show lookupA (registerJoin (joinRoomsBefore st sid) rid sid) old = _
    rw [lookupA_registerJoin_ne _ _ hor, hRB]
    cases hl : lookupA st.rooms old with
    | none =>
      rw [lookupA_leaveRoom_none hl]
      exact hl
    | some room =>
      by_cases he : ((room.users.filter (fun x => x ≠ sid)).isEmpty = true)
      · rw [lookupA_leaveRoom_self_none hl he hnd]
        exact (if_pos he).symm
      · rw [lookupA_leaveRoom_self_some hl he]
        exact (if_neg he).symm

theorem join_switch_runs_leave_without_user_left_witness :
    (serverStep sampleState (ServerEvent.joinRoom "a" "r2")).1.rooms =
      registerJoin (leaveRoom "a" "r1" sampleState.rooms) "r2" "a" :=
  (join_switch_runs_leave_without_user_left sampleState "a" "r2" "r1" (by decide)).1

/-! ## Client operation lemmas -/

theorem createPeerConnection_frame (cs : ClientState) (selfId u : String) :
    (createPeerConnection cs selfId u).localStream = cs.localStream ∧
    (createPeerConnection cs selfId u).roomId = cs.roomId ∧
    (createPeerConnection cs selfId u).isInRoom = cs.isInRoom ∧
    (createPeerConnection cs selfId u).currentRoomUsers = cs.currentRoomUsers := by
  unfold createPeerConnection
  by_cases h1 : u = selfId
  · rw [if_pos h1]
    exact ⟨rfl, rfl, rfl, rfl⟩
  · rw [if_neg h1]
    by_cases h2 : ((lookupA cs.peers u).isSome = true)
    · rw [if_pos h2]
      exact ⟨rfl, rfl, rfl, rfl⟩
    · rw [if_neg h2]
      exact ⟨rfl, rfl, rfl, rfl⟩

theorem createPeerConnection_exists {cs : ClientState} {selfId u : String} (h : u ≠ selfId) :
    (lookupA (createPeerConnection cs selfId u).peers u).isSome := by
  unfold createPeerConnection
  rw [if_neg h]
  by_cases h2 : ((lookupA cs.peers u).isSome = true)
  · rw [if_pos h2]
    exact h2
  · rw [if_neg h2]
    have hnone : lookupA cs.peers u = none := by
      cases hx : lookupA cs.peers u with
      | none => rfl
      | some pc =>
        rw [hx] at h2
        simp at h2
    show (lookupA (cs.peers ++ [(u, freshPeerConn cs.localStream)]) u).isSome
    rw [lookupA_append_none _ hnone]
    simp [lookupA]

theorem createPeerConnection_mono {cs : ClientState} {selfId u x : String}
    (h : (lookupA cs.peers x).isSome) :
    (lookupA (createPeerConnection cs selfId u).peers x).isSome := by
  unfold createPeerConnection
  by_cases h1 : u = selfId
  · rw [if_pos h1]
    exact h
  · rw [if_neg h1]
    by_cases h2 : ((lookupA cs.peers u).isSome = true)
    · rw [if_pos h2]
      exact h
    · rw [if_neg h2]
      show (lookupA (cs.peers ++ [(u, freshPeerConn cs.localStream)]) x).isSome
      obtain ⟨pc, hpc⟩ := Option.isSome_iff_exists.mp h
      rw [lookupA_append_some _ hpc]
      rfl

theorem createPeerConnection_none_preserved {cs : ClientState} {selfId : String} (u : String)
    (h : lookupA cs.peers selfId = none) :
    lookupA (createPeerConnection cs selfId u).peers selfId = none := by
  unfold createPeerConnection
  by_cases h1 : u = selfId
  · rw [if_pos h1]
    exact h
  · rw [if_neg h1]
    by_cases h2 : ((lookupA cs.peers u).isSome = true)
    · rw [if_pos h2]
      exact h
    · rw [if_neg h2]
      show lookupA (cs.peers ++ [(u, freshPeerConn cs.localStream)]) selfId = none
      rw [lookupA_append_none _ h]
      simp [lookupA, h1]

theorem createOffer_nopc {cs : ClientState} {selfId u : String}
    (h : lookupA cs.peers u = none) : createOffer cs selfId u = (cs, []) := by
  unfold createOffer
  rw [h]

theorem createOffer_noStream {cs : ClientState} {selfId u : String} {pc : PeerConn}
    (h : lookupA cs.peers u = some pc) (hs : ¬(cs.localStream = true)) :
    createOffer cs selfId u = (cs, []) := by
  unfold createOffer
  rw [h]
  exact if_neg hs

theorem createOffer_sends {cs : ClientState} {selfId u : String} {pc : PeerConn}
    (h : lookupA cs.peers u = some pc) (hs : cs.localStream = true) :
    createOffer cs selfId u =
      ({ cs with peers := setA cs.peers u { pc with localDesc := some offerDesc } },
       [ClientMsg.signal cs.roomId selfId (some u) (ClientSignal.sd offerDesc)]) := by
  unfold createOffer
  rw [h]
  exact if_pos hs

theorem createOffer_frame (cs : ClientState) (selfId u : String) :
    (createOffer cs selfId u).1.localStream = cs.localStream ∧
    (createOffer cs selfId u).1.roomId = cs.roomId ∧
    (createOffer cs selfId u).1.isInRoom = cs.isInRoom := by
  cases hl : lookupA cs.peers u with
  | none =>
    rw [createOffer_nopc hl]
    exact ⟨rfl, rfl, rfl⟩
  | some pc =>
    by_cases hs : (cs.localStream = true)
    · rw [createOffer_sends hl hs]
      exact ⟨rfl, rfl, rfl⟩
    · rw [createOffer_noStream hl hs]
      exact ⟨rfl, rfl, rfl⟩

theorem createOffer_isSome {cs : ClientState} (selfId u : String) {x : String}
    (h : (lookupA cs.peers x).isSome) :
    (lookupA (createOffer cs selfId u).1.peers x).isSome := by
  cases hl : lookupA cs.peers u with
  | none =>
    rw [createOffer_nopc hl]
    exact h
  | some pc =>
    by_cases hs : (cs.localStream = true)
    · rw [createOffer_sends hl hs]
      exact lookupA_setA_isSome h
    · rw [createOffer_noStream hl hs]
      exact h

theorem createOffer_none_preserved {cs : ClientState} {selfId : String} (u : String)
    (h : lookupA cs.peers selfId = none) :
    lookupA (createOffer cs selfId u).1.peers selfId = none := by
  cases hl : lookupA cs.peers u with
  | none =>
    rw [createOffer_nopc hl]
    exact h
  | some pc =>
    by_cases hs : (cs.localStream = true)
    · rw [createOffer_sends hl hs]
      have hu : selfId ≠ u := by
        intro hh
        rw [hh] at h
        rw [h] at hl
        cases hl
      rw [lookupA_setA_ne _ _ hu]
      exact h
    · rw [createOffer_noStream hl hs]
      exact h

theorem connectLoop_cons (selfId u : String) (rest : List String) (cs : ClientState) :
    connectLoop selfId cs (u :: rest) =
      ((connectLoop selfId (createOffer (createPeerConnection cs selfId u) selfId u).1 rest).1,
       (createOffer (createPeerConnection cs selfId u) selfId u).2 ++
       (connectLoop selfId (createOffer (createPeerConnection cs selfId u) selfId u).1 rest).2) :=
  rfl

theorem connectLoop_frame (selfId : String) (l : List String) :
    ∀ cs : ClientState, (connectLoop selfId cs l).1.localStream = cs.localStream ∧
      (connectLoop selfId cs l).1.roomId = cs.roomId := by
  induction l with
  | nil => intro cs; exact ⟨rfl, rfl⟩
  | cons u rest ih =>
    intro cs
    have h1 := createPeerConnection_frame cs selfId u
    have h2 := createOffer_frame (createPeerConnection cs selfId u) selfId u
    have h3 := ih (createOffer (createPeerConnection cs selfId u) selfId u).1
    exact ⟨h3.1.trans (h2.1.trans h1.1), h3.2.trans (h2.2.1.trans h1.2.1)⟩

theorem connectLoop_isSome (selfId : String) (l : List String) {x : String} :
    ∀ cs : ClientState, (lookupA cs.peers x).isSome →
      (lookupA (connectLoop selfId cs l).1.peers x).isSome := by
  induction l with
  | nil => intro cs h; exact h
  | cons u rest ih =>
    intro cs h
    exact ih _ (createOffer_isSome selfId u (createPeerConnection_mono h))

theorem connectLoop_none_preserved (selfId : String) (l : List String) :
    ∀ cs : ClientState, lookupA cs.peers selfId = none →
      lookupA (connectLoop selfId cs l).1.peers selfId = none := by
  induction l with
  | nil => intro cs h; exact h
  | cons u rest ih =>
    intro cs h
    exact ih _ (createOffer_none_preserved u (createPeerConnection_none_preserved u h))

theorem connectLoop_progress (selfId u : String) (l : List String) (hne : u ≠ selfId) :
    ∀ cs : ClientState, cs.localStream = true → u ∈ l →
      (lookupA (connectLoop selfId cs l).1.peers u).isSome ∧
      ClientMsg.signal cs.roomId selfId (some u) (ClientSignal.sd offerDesc) ∈
        (connectLoop selfId cs l).2 := by
  induction l with
  | nil =>
    intro cs _ hu
    simp at hu
  | cons v rest ih =>
    intro cs hs hu
    rw [connectLoop_cons]
    rcases List.mem_cons.mp hu with hv | hv
    · subst hv
      have hs1 : (createPeerConnection cs selfId u).localStream = true := by
        rw [(createPeerConnection_frame cs selfId u).1]
        exact hs
      have hpc := @createPeerConnection_exists cs selfId u hne
      obtain ⟨pc, hpcEq⟩ := Option.isSome_iff_exists.mp hpc
      rw [createOffer_sends hpcEq hs1]
      constructor
      · exact connectLoop_isSome selfId rest _ (lookupA_setA_isSome hpc)
      · apply List.mem_append_left
        rw [(createPeerConnection_frame cs selfId u).2.1]
        exact List.mem_singleton.mpr rfl
    · have hframe1 := createPeerConnection_frame cs selfId v
      have hframe2 := createOffer_frame (createPeerConnection cs selfId v) selfId v
      have hs1 : (createOffer (createPeerConnection cs selfId v) selfId v).1.localStream = true := by
        rw [hframe2.1, hframe1.1]
        exact hs
      have hrid : (createOffer (createPeerConnection cs selfId v) selfId v).1.roomId = cs.roomId := by
        rw [hframe2.2.1, hframe1.2.1]
      obtain ⟨hsome, hmsg⟩ := ih _ hs1 hv
      rw [hrid] at hmsg
      exact ⟨hsome, List.mem_append_right _ hmsg⟩

theorem one_lt_length_of_two_mem {l : List String} {a b : String} (ha : a ∈ l) (hb : b ∈ l)
    (hab : a ≠ b) : 1 < l.length := by
  cases l with
  | nil => simp at ha
  | cons x xs =>
    cases xs with
    | nil =>
      simp at ha hb
      rw [ha, hb] at hab
      exact absurd rfl hab
    | cons y ys =>
      simp only [List.length_cons]
      omega

theorem roomStateLoop_cons (selfId v : String) (rest : List String) (cs : ClientState) :
    roomStateLoop selfId cs (v :: rest) =
      if v ≠ selfId then
        ((roomStateLoop selfId (createOffer (createPeerConnection cs selfId v) selfId v).1 rest).1,
         (createOffer (createPeerConnection cs selfId v) selfId v).2 ++
         (roomStateLoop selfId (createOffer (createPeerConnection cs selfId v) selfId v).1 rest).2)
      else roomStateLoop selfId cs rest :=
  rfl

theorem roomStateLoop_none_preserved (selfId : String) (l : List String) :
    ∀ cs : ClientState, lookupA cs.peers selfId = none →
      lookupA (roomStateLoop selfId cs l).1.peers selfId = none := by
  induction l with
  | nil => intro cs h; exact h
  | cons v rest ih =>
    intro cs h
    rw [roomStateLoop_cons]
    by_cases hv : (v ≠ selfId)
    · rw [if_pos hv]
      exact ih _ (createOffer_none_preserved v (createPeerConnection_none_preserved v h))
    · rw [if_neg hv]
      exact ih _ h

theorem applySignalToPeer_nopc {cs0 : ClientState} {selfId fromId : String}
    (sig : ClientSignal) (h : lookupA cs0.peers fromId = none) :
    applySignalToPeer cs0 selfId fromId sig = (cs0, []) := by
  unfold applySignalToPeer
  rw [h]

theorem applySignalToPeer_offer {cs0 : ClientState} {selfId fromId : String} {pc : PeerConn}
    (sdp : String) (h : lookupA cs0.peers fromId = some pc) :
    applySignalToPeer cs0 selfId fromId (ClientSignal.sd ⟨SDKind.offer, sdp⟩) =
      ({ cs0 with peers := (setA cs0.peers fromId
          ⟨some answerDesc, some ⟨SDKind.offer, sdp⟩, pc.addedCandidates, pc.tracksAttached⟩) },
       [ClientMsg.signal cs0.roomId selfId (some fromId) (ClientSignal.sd answerDesc)]) := by
  unfold applySignalToPeer
  rw [h]
  rfl

theorem applySignalToPeer_answer {cs0 : ClientState} {selfId fromId : String} {pc : PeerConn}
    (sdp : String) (h : lookupA cs0.peers fromId = some pc) :
    applySignalToPeer cs0 selfId fromId (ClientSignal.sd ⟨SDKind.answer, sdp⟩) =
      ({ cs0 with peers := (setA cs0.peers fromId
          ⟨pc.localDesc, some ⟨SDKind.answer, sdp⟩, pc.addedCandidates, pc.tracksAttached⟩) },
       []) := by
  unfold applySignalToPeer
  rw [h]
  have hk : ¬((⟨SDKind.answer, sdp⟩ : SDesc).kind = SDKind.offer) := by
    intro hh
    cases hh
  exact if_neg hk

theorem applySignalToPeer_candidate_drop {cs0 : ClientState} {selfId fromId : String}
    {pc : PeerConn} (c : String) (h : lookupA cs0.peers fromId = some pc)
    (hrd : pc.remoteDesc = none) :
    applySignalToPeer cs0 selfId fromId (ClientSignal.candidate c) = (cs0, []) := by
  unfold applySignalToPeer
  rw [h]
  have hk : ¬(pc.remoteDesc.isSome = true) := by
    rw [hrd]
    simp
  exact if_neg hk

theorem applySignalToPeer_candidate_add {cs0 : ClientState} {selfId fromId : String}
    {pc : PeerConn} (c : String) (h : lookupA cs0.peers fromId = some pc)
    (hrd : pc.remoteDesc.isSome = true) :
    applySignalToPeer cs0 selfId fromId (ClientSignal.candidate c) =
      ({ cs0 with peers := (setA cs0.peers fromId
          ⟨pc.localDesc, pc.remoteDesc, pc.addedCandidates ++ [c], pc.tracksAttached⟩) },
       []) := by
  unfold applySignalToPeer
  rw [h]
  exact if_pos hrd

theorem applySignalToPeer_none_preserved (cs0 : ClientState) (selfId fromId : String)
    (sig : ClientSignal) (h : lookupA cs0.peers selfId = none) :
    lookupA (applySignalToPeer cs0 selfId fromId sig).1.peers selfId = none := by
  cases hl : lookupA cs0.peers fromId with
  | none =>
    rw [applySignalToPeer_nopc sig hl]
    exact h
  | some pc =>
    have hno : selfId ≠ fromId := by
      intro hh
      rw [hh] at h
      rw [h] at hl
      cases hl
    cases sig with
    | sd d =>
      obtain ⟨k, sdp⟩ := d
      cases k with
      | offer =>
        rw [applySignalToPeer_offer sdp hl]
        rw [lookupA_setA_ne _ _ hno]
        exact h
      | answer =>
        rw [applySignalToPeer_answer sdp hl]
        rw [lookupA_setA_ne _ _ hno]
        exact h
    | candidate c =>
      by_cases hrd : (pc.remoteDesc.isSome = true)
      · rw [applySignalToPeer_candidate_add c hl hrd]
        rw [lookupA_setA_ne _ _ hno]
        exact h
      · have hrdn : pc.remoteDesc = none := by
          cases hx : pc.remoteDesc with
          | none => rfl
          | some d =>
            rw [hx] at hrd
            simp at hrd
        rw [applySignalToPeer_candidate_drop c hl hrdn]
        exact h

theorem handleWebrtcSignal_existing {cs : ClientState} {selfId fromId : String} {pc : PeerConn}
    (sig : ClientSignal) (hpc : lookupA cs.peers fromId = some pc) :
    handleWebrtcSignal cs selfId fromId sig = applySignalToPeer cs selfId fromId sig := by
  unfold handleWebrtcSignal
  have hcond : ¬((lookupA cs.peers fromId).isNone = true ∧ cs.localStream = true) := by
    intro hcond
    rw [hpc] at hcond
    simp at hcond
  rw [if_neg hcond]

theorem handleRoomState_none_preserved (cs : ClientState) (selfId : String)
    (users : List String) (h : lookupA cs.peers selfId = none) :
    lookupA (handleRoomState cs selfId users).1.peers selfId = none := by
  unfold handleRoomState
  dsimp only
  split
  · exact roomStateLoop_none_preserved selfId users _ h
  · exact h

theorem handleUserJoined_none_preserved (cs : ClientState) (selfId uid : String)
    (h : lookupA cs.peers selfId = none) :
    lookupA (handleUserJoined cs selfId uid).1.peers selfId = none := by
  unfold handleUserJoined
  dsimp only
  split
  · exact createOffer_none_preserved uid (createPeerConnection_none_preserved uid h)
  · exact h

theorem handleUserLeft_none_preserved (cs : ClientState) {selfId : String} (uid : String)
    (h : lookupA cs.peers selfId = none) :
    lookupA (handleUserLeft cs uid).peers selfId = none :=
  lookupA_eraseA_none h

theorem startLocalStream_none_preserved (cs : ClientState) (selfId : String)
    (h : lookupA cs.peers selfId = none) :
    lookupA (startLocalStream cs selfId).1.peers selfId = none := by
  unfold startLocalStream
  dsimp only
  split
  · exact connectLoop_none_preserved selfId _ _ h
  · exact h

theorem joinRoomLocal_none_preserved (cs : ClientState) {selfId : String} (name : String)
    (h : lookupA cs.peers selfId = none) :
    lookupA (joinRoomLocal cs name).1.peers selfId = none := by
  unfold joinRoomLocal
  split
  · exact h
  · split
    · rfl
    · exact h

/-- C7: an incoming `offer` on an existing peer link is applied as the
remote description whatever the link's current state — the statement
quantifies over an arbitrary prior `PeerConn`, including one whose
local description is an offer (the Offering state), and nothing is
rolled back — then an `answer` description is produced, applied as the
local description, and sent back to the offering peer as a targeted
signal. -/
theorem incoming_offer_applied_unconditionally (cs : ClientState)
    (selfId fromId sdp : String) (pc : PeerConn)
    (hpc : lookupA cs.peers fromId = some pc) :
    handleWebrtcSignal cs selfId fromId (ClientSignal.sd ⟨SDKind.offer, sdp⟩) =
      ({ cs with peers := (setA cs.peers fromId
          ⟨some answerDesc, some ⟨SDKind.offer, sdp⟩, pc.addedCandidates, pc.tracksAttached⟩) },
       [ClientMsg.signal cs.roomId selfId (some fromId) (ClientSignal.sd answerDesc)]) ∧
    answerDesc.kind = SDKind.answer := by
  rw [handleWebrtcSignal_existing _ hpc, applySignalToPeer_offer sdp hpc]
  exact ⟨rfl, rfl⟩

theorem incoming_offer_applied_unconditionally_witness :
    handleWebrtcSignal offeringClient "me" "p1" (ClientSignal.sd ⟨SDKind.offer, "their-offer"⟩) =
      ({ offeringClient with peers := (setA offeringClient.peers "p1"
          ⟨some answerDesc, some ⟨SDKind.offer, "their-offer"⟩, [], true⟩) },
       [ClientMsg.signal offeringClient.roomId "me" (some "p1") (ClientSignal.sd answerDesc)]) ∧
    answerDesc.kind = SDKind.answer :=
  incoming_offer_applied_unconditionally offeringClient "me" "p1" "their-offer"
    ⟨some ⟨SDKind.offer, "my-offer"⟩, none, [], true⟩ (by decide)

/-- C1 (code_bug): the candidate branch of the client's `webrtc-signal`
handler drops any candidate that arrives before a remote description is
applied.  Processing such a candidate leaves the client state entirely
unchanged — the state has no buffer anywhere, matching the code, which
only logs "Queueing ICE candidate" without queueing — and after a
subsequent session description is applied on that link, the dropped
candidate has still never been added to the transport.  The spec's
per-peer FIFO buffer does not exist. -/
theorem ice_candidate_dropped_before_remote_desc (cs : ClientState)
    (selfId fromId c : String) (pc : PeerConn) (d : SDesc)
    (hpc : lookupA cs.peers fromId = some pc) (hrd : pc.remoteDesc = none)
    (hc : c ∉ pc.addedCandidates) :
    handleWebrtcSignal cs selfId fromId (ClientSignal.candidate c) = (cs, []) ∧
    (∀ pc', lookupA (handleWebrtcSignal cs selfId fromId (ClientSignal.sd d)).1.peers fromId =
        some pc' → c ∉ pc'.addedCandidates) := by
  constructor
  · rw [handleWebrtcSignal_existing _ hpc]
    exact applySignalToPeer_candidate_drop c hpc hrd
  · intro pc' hpc'
    rw [handleWebrtcSignal_existing _ hpc] at hpc'
    obtain ⟨k, sdp⟩ := d
    cases k with
    | offer =>
      rw [applySignalToPeer_offer sdp hpc] at hpc'
      dsimp only at hpc'
      rw [lookupA_setA_self] at hpc'
      rw [← Option.some.inj hpc']
      exact hc
    | answer =>
      rw [applySignalToPeer_answer sdp hpc] at hpc'
      dsimp only at hpc'
      rw [lookupA_setA_self] at hpc'
      rw [← Option.some.inj hpc']
      exact hc

theorem ice_candidate_dropped_before_remote_desc_witness :
    handleWebrtcSignal preOfferClient "me" "p1" (ClientSignal.candidate "cand1") =
      (preOfferClient, []) ∧
    "cand1" ∉ (⟨some answerDesc, some ⟨SDKind.offer, "their-offer"⟩, [], true⟩ :
      PeerConn).addedCandidates :=
  ⟨(ice_candidate_dropped_before_remote_desc preOfferClient "me" "p1" "cand1"
      ⟨none, none, [], true⟩ ⟨SDKind.offer, "their-offer"⟩ (by decide) (by decide) (by decide)).1,
   (ice_candidate_dropped_before_remote_desc preOfferClient "me" "p1" "cand1"
      ⟨none, none, [], true⟩ ⟨SDKind.offer, "their-offer"⟩ (by decide) (by decide) (by decide)).2
     ⟨some answerDesc, some ⟨SDKind.offer, "their-offer"⟩, [], true⟩ (by decide)⟩

/-- C8: when local media becomes ready while the session is in a room
(so the membership view contains self), a peer link exists afterwards
for every member of the current room other than self — including
members recorded while media was not ready — and a targeted offer is
emitted for each of them. -/
theorem media_ready_offers_to_all_members (cs : ClientState) (selfId u : String)
    (hroom : cs.isInRoom = true) (hself : selfId ∈ cs.currentRoomUsers)
    (hu : u ∈ cs.currentRoomUsers) (hne : u ≠ selfId) :
    (startLocalStream cs selfId).1.localStream = true ∧
    (lookupA (startLocalStream cs selfId).1.peers u).isSome ∧
    ClientMsg.signal cs.roomId selfId (some u) (ClientSignal.sd offerDesc) ∈
      (startLocalStream cs selfId).2 := by
  have hlen : 1 < cs.currentRoomUsers.length := one_lt_length_of_two_mem hu hself hne
  unfold startLocalStream
  dsimp only
  have hcond : (({ cs with localStream := true } : ClientState).isInRoom = true ∧
      1 < ({ cs with localStream := true } : ClientState).currentRoomUsers.length) :=
    ⟨hroom, hlen⟩
  rw [if_pos hcond]
  have hufil : u ∈ ({ cs with localStream := true } : ClientState).currentRoomUsers.filter
      (fun x => x ≠ selfId) := by
    apply List.mem_filter.mpr
    refine ⟨hu, ?_⟩
    simp [hne]
  have hprog := connectLoop_progress selfId u _ hne { cs with localStream := true } rfl hufil
  exact ⟨(connectLoop_frame selfId _ _).1, hprog.1, hprog.2⟩

theorem media_ready_offers_to_all_members_witness :
    (startLocalStream mediaPendingClient "me").1.localStream = true ∧
    (lookupA (startLocalStream mediaPendingClient "me").1.peers "p1").isSome ∧
    ClientMsg.signal (some "r1") "me" (some "p1") (ClientSignal.sd offerDesc) ∈
      (startLocalStream mediaPendingClient "me").2 :=
  media_ready_offers_to_all_members mediaPendingClient "me" "p1" (by decide) (by decide)
    (by decide) (by decide)

/-- C9: `createPeerConnection` is idempotent on an existing link (the
whole state, including the transport-allocation count, is unchanged)
and rejects self-links (no entry is made for the local id), and no
client event can introduce the local id into the peers map: every
handler preserves its absence. -/
theorem create_peer_idempotent_and_no_self :
    (∀ (cs : ClientState) (selfId u : String), (lookupA cs.peers u).isSome →
      createPeerConnection cs selfId u = cs) ∧
    (∀ (cs : ClientState) (selfId : String), createPeerConnection cs selfId selfId = cs) ∧
    (∀ (cs : ClientState) (selfId : String) (e : ClientEvent),
      lookupA cs.peers selfId = none →
      lookupA (clientStep cs selfId e).1.peers selfId = none) := by
  refine ⟨?_, ?_, ?_⟩
  · intro cs selfId u h
    unfold createPeerConnection
    by_cases h1 : u = selfId
    · rw [if_pos h1]
    · rw [if_neg h1, if_pos h]
  · intro cs selfId
    unfold createPeerConnection
    rw [if_pos rfl]
  · intro cs selfId e h
    cases e with
    | roomState users => exact handleRoomState_none_preserved cs selfId users h
    | userJoined uid => exact handleUserJoined_none_preserved cs selfId uid h
    | userLeft uid => exact handleUserLeft_none_preserved cs uid h
    | webrtcSignal fromId sig =>
      show lookupA (handleWebrtcSignal cs selfId fromId sig).1.peers selfId = none
      unfold handleWebrtcSignal
      apply applySignalToPeer_none_preserved
      split
      · exact createPeerConnection_none_preserved fromId h
      · exact h
    | mediaReady => exact startLocalStream_none_preserved cs selfId h
    | joinRoomReq name => exact joinRoomLocal_none_preserved cs name h

theorem create_peer_idempotent_and_no_self_witness :
    createPeerConnection offeringClient "me" "p1" = offeringClient ∧
    createPeerConnection offeringClient "me" "me" = offeringClient ∧
    lookupA (clientStep mediaPendingClient "me" ClientEvent.mediaReady).1.peers "me" = none :=
  ⟨create_peer_idempotent_and_no_self.1 offeringClient "me" "p1" (by decide),
   create_peer_idempotent_and_no_self.2.1 offeringClient "me",
   create_peer_idempotent_and_no_self.2.2 mediaPendingClient "me" ClientEvent.mediaReady
     (by decide)⟩

end RealtimeApp
